import Mathlib

/-!
Verification of the transfer-ganging engine
(`custom_addons/transfer_ganging/models/project_task.py` and
`custom_addons/transfer_ganging/models/ganging_engine.py`).

All physical dimensions in the source are Python floats with at most two
decimal digits (e.g. 154.5, 109.75).  We embed them exactly as natural
numbers in hundredths of a millimetre (`cmm`), so every comparison and
every floor division in the source is reproduced exactly; ratios such as
utilization and cost fractions are computed in `ℚ`.
-/

namespace TransferGanging

/-- Transfer size tags from `SIZE_DIMS` in `project_task.py`; `unknown`
stands for any tag outside the table (lookup yields `(0,0)`). -/
inductive SizeTag where
  | a3 | a4 | a5 | a6 | s295x100 | s95x95 | s100x70 | s60x60 | s290x140 | unknown
deriving DecidableEq, Repr

/-- `SHEET_W_MM = 310`, in hundredths of a millimetre. -/
def SHEET_W_CMM : Nat := 31000

/-- `SHEET_H_MM = 440`, in hundredths of a millimetre. -/
def SHEET_H_CMM : Nat := 44000

/-- `SHEET_AREA_MM2 = SHEET_W_MM * SHEET_H_MM` (in cmm²). -/
def SHEET_AREA_CMM2 : Nat := SHEET_W_CMM * SHEET_H_CMM

/-- `SIZE_DIMS` / `get_size_dims_mm` from `project_task.py`, in hundredths
of a millimetre: a3 (297,420), a4 (309,219.5), a5 (154.5,219.22),
a6 (154.5,109.75), 295x100 (309,109.75), 95x95 (103,109.75),
100x70 (77.25,109.75), 60x60 (77.25,73.17), 290x140 (309,146);
unknown tags give the degenerate (0,0). -/
def size_dims_cmm : SizeTag → Nat × Nat
  | .a3 => (29700, 42000)
  | .a4 => (30900, 21950)
  | .a5 => (15450, 21922)
  | .a6 => (15450, 10975)
  | .s295x100 => (30900, 10975)
  | .s95x95 => (10300, 10975)
  | .s100x70 => (7725, 10975)
  | .s60x60 => (7725, 7317)
  | .s290x140 => (30900, 14600)
  | .unknown => (0, 0)

/-- `get_size_dims_mm` in millimetres, as exact rationals. -/
def get_size_dims_mm (s : SizeTag) : ℚ × ℚ :=
  (((size_dims_cmm s).1 : ℚ) / 100, ((size_dims_cmm s).2 : ℚ) / 100)

/-- Sheet width in millimetres. -/
def SHEET_W_MM : ℚ := 310

/-- Sheet height in millimetres. -/
def SHEET_H_MM : ℚ := 440

/-- `_get_fits_on_a3` from `project_task.py`: 0 for the native a3 size,
0 for degenerate or oversize dimensions, else
`int(SHEET_W_MM // item_w) * int(SHEET_H_MM // item_h)` (no rotation,
no gutters).  Scaling width and height by the same factor leaves both
the comparisons and the floor quotients unchanged, so the cmm integers
reproduce the float computation exactly. -/
def get_fits_on_a3 (size : SizeTag) : Nat :=
  if size = SizeTag.a3 then 0
  else
    let w := (size_dims_cmm size).1
    let h := (size_dims_cmm size).2
    if w = 0 ∨ h = 0 then 0
    else if SHEET_W_CMM < w ∨ SHEET_H_CMM < h then 0
    else (SHEET_W_CMM / w) * (SHEET_H_CMM / h)

/-- Product types recognised by `get_parsed_product_type`
(`full_colour`, `single_colour`, `metal`, `zero`; `untyped` stands for a
task whose name yields no type, i.e. the Python `None`). -/
inductive ProductType where
  | full_colour | single_colour | metal | zero | untyped
deriving DecidableEq, Repr

/-- Colour variants recognised by `get_parsed_color_variant`. -/
inductive ColorVariant where
  | white | black | red | blue | green | yellow | orange | purple | pink
  | brown | grey | navy | maroon | teal | lime | silver | gold
deriving DecidableEq, Repr

/-- A snapshot of one `project.task` record as the engine reads it.
`productType`, `colorVariant`, `size` and `parsedQty` are the values the
free-text parsers (`get_parsed_product_type`, `get_parsed_color_variant`,
`get_parsed_transfer_size`, `get_parsed_quantity`) return for the record;
`deadlineDays` is `(date_deadline - today).days` when a deadline exists;
`inLayStage` says whether the current stage name contains `LAY`;
`screenCost` and `sheetCost` are the owning project's `gang_screen_cost`
and `gang_a3_sheet_cost` (field defaults 50.0 and 2.0). -/
structure Task where
  id : Nat
  productType : ProductType
  colorVariant : Option ColorVariant
  size : SizeTag
  parsedQty : Nat
  deadlineDays : Option Int
  inLayStage : Bool
  screenCost : ℚ
  sheetCost : ℚ
deriving DecidableEq, Repr

/-- Default of the `gang_screen_cost` field on `project.project` (also the
`getattr` fallback in `is_cost_effective_to_gang`). -/
def default_gang_screen_cost : ℚ := 50

/-- Default of the `gang_a3_sheet_cost` field on `project.project` (also
the `getattr` fallback in `is_cost_effective_to_gang`). -/
def default_gang_a3_sheet_cost : ℚ := 2

/-- `get_remaining_quantity`: 0 once the task sits in a LAY column, else
the parsed quantity. -/
def get_remaining_quantity (t : Task) : Nat :=
  if t.inLayStage then 0 else t.parsedQty

/-- `is_cost_effective_to_gang(size, quantity)` from `project_task.py`,
for explicitly passed size and quantity (as every engine call site does).
`if not size or not quantity: return False` makes quantity 0 immediately
non-cost-effective; sizes that do not fit (`fits_on_a3 == 0`, in
particular a3) are never cost-effective; otherwise the waste cost of
running the quantity alone is compared with the screen cost. -/
def is_cost_effective_to_gang (t : Task) (size : SizeTag) (quantity : Nat) : Bool :=
  if quantity = 0 then false
  else
    let fits := get_fits_on_a3 size
    if fits = 0 then false
    else
      let sheets_needed := (quantity + fits - 1) / fits
      let total_capacity := sheets_needed * fits
      let waste_quantity := total_capacity - quantity
      let waste_percentage : ℚ :=
        if 0 < total_capacity then (waste_quantity : ℚ) / (total_capacity : ℚ) else 0
      let waste_cost : ℚ := (sheets_needed : ℚ) * t.sheetCost * waste_percentage
      waste_cost < t.screenCost

/-- `get_gang_priority` from `project_task.py`: a deadline bucket
(≤1 day → 100, ≤3 → 50, ≤7 → 25, else 0, no deadline → 0) plus 10 when
the task is individually cost-effective at its own size and quantity. -/
def get_gang_priority (t : Task) : Nat :=
  let deadline_part : Nat :=
    match t.deadlineDays with
    | none => 0
    | some d => if d ≤ 1 then 100 else if d ≤ 3 then 50 else if d ≤ 7 then 25 else 0
  let bonus : Nat := if is_cost_effective_to_gang t t.size t.parsedQty then 10 else 0
  deadline_part + bonus

/-! ### Utilization calculator (`_calculate_template_utilization`) -/

/-- One step of a stable insertion sort descending on a natural-number
key: a later element is placed before the first element of strictly
smaller key, hence after every earlier element of greater-or-equal key —
exactly the order Python's stable `sorted(key=..., reverse=True)`
produces. -/
def insert_desc_by {α : Type} (key : α → Nat) (x : α) : List α → List α
  | [] => [x]
  | y :: ys => if key y < key x then x :: y :: ys else y :: insert_desc_by key x ys

/-- Stable descending sort by a natural-number key (Python's
`sorted(..., key=..., reverse=True)` / `sort(key=..., reverse=True)`). -/
def sort_desc_by {α : Type} (key : α → Nat) (l : List α) : List α :=
  l.foldl (fun acc x => insert_desc_by key x acc) []

/-- Stable sort of `(w,h)` items by height descending,
`items_to_place.sort(key=lambda x: x[1], reverse=True)`. -/
def sort_by_height_desc (l : List (Nat × Nat)) : List (Nat × Nat) :=
  sort_desc_by Prod.snd l

/-- Expansion loop of `_calculate_template_utilization`: walk the layout
in order, fail (`return 0` in the source) as soon as a size with a
non-positive width or height is seen — even with count 0 — and otherwise
emit `quantity` copies of the dimensions. -/
def expand_layout : List (SizeTag × Nat) → Option (List (Nat × Nat))
  | [] => some []
  | (size, quantity) :: rest =>
    let wh := size_dims_cmm size
    if wh.1 = 0 ∨ wh.2 = 0 then none
    else
      match expand_layout rest with
      | none => none
      | some items => some (List.replicate quantity wh ++ items)

/-- Inner `for i, (shelf_width, shelf_height) in enumerate(shelves)` loop:
place `(w,h)` on the first shelf (in creation order) where
`shelf_width + item_w ≤ SHEET_W` and `item_h ≤ shelf_height`, widening
that shelf; `none` when no existing shelf accepts the item. -/
def try_shelves (w h : Nat) : List (Nat × Nat) → Option (List (Nat × Nat))
  | [] => none
  | (sw, sh) :: ss =>
    if sw + w ≤ SHEET_W_CMM ∧ h ≤ sh then some ((sw + w, sh) :: ss)
    else
      match try_shelves w h ss with
      | some ss2 => some ((sw, sh) :: ss2)
      | none => none

/-- Main packing loop of `_calculate_template_utilization`: each item is
placed on the first fitting shelf, else a new shelf of the item's height
is opened when the cumulative shelf height plus the item height fits the
sheet height and the item width fits the sheet width; if neither works
the whole layout is rejected (`return 0`).  Returns the accumulated used
area on success. -/
def pack_items : List (Nat × Nat) → List (Nat × Nat) → Nat → Option Nat
  | [], _, area => some area
  | (w, h) :: rest, shelves, area =>
    match try_shelves w h shelves with
    | some shelves2 => pack_items rest shelves2 (area + w * h)
    | none =>
      let new_shelf_y := (shelves.map Prod.snd).sum
      if new_shelf_y + h ≤ SHEET_H_CMM ∧ w ≤ SHEET_W_CMM then
        pack_items rest (shelves ++ [(w, h)]) (area + w * h)
      else none

/-- The whole shelf-packing pipeline up to the used-area total: expand,
stable-sort by height descending, pack; `none` on any `return 0` path
(invalid size or unplaceable item). -/
def pack_layout (layout : List (SizeTag × Nat)) : Option Nat :=
  match expand_layout layout with
  | none => none
  | some items => pack_items (sort_by_height_desc items) [] 0

/-- `_calculate_template_utilization`: `total_used_area / SHEET_AREA_MM2`
on success (returned as-is when ≤ 1, else 0), and 0 on any failure path.
Areas are in cmm², so the quotient equals the source's mm² quotient. -/
def calculate_template_utilization (layout : List (SizeTag × Nat)) : ℚ :=
  match pack_layout layout with
  | none => 0
  | some area =>
    let utilization : ℚ := (area : ℚ) / (SHEET_AREA_CMM2 : ℚ)
    if utilization ≤ 1 then utilization else 0

/-! ### Spec-side model of the utilization algorithm (spec §4.2)

A second, independently structured rendering of the specification's
wording, to be compared with the source embedding above: step 1 expands
the layout and rejects it when it mentions any invalid size; step 2
stable-sorts by height descending; steps 3–6 fold a placement function
over the items with an explicit `(shelves, totalUsedArea)` state; step 7
divides by the sheet area, treating a quotient above 1 as infeasible. -/

/-- Spec §4.2 step 1, the expansion into `(w,h)` item instances. -/
def spec_expand_items (layout : List (SizeTag × Nat)) : List (Nat × Nat) :=
  layout.flatMap (fun p => List.replicate p.2 (size_dims_cmm p.1))

/-- Spec §4.2 step 1, the validity check: the layout mentions a size
with non-positive width or height. -/
def spec_has_invalid_size (layout : List (SizeTag × Nat)) : Bool :=
  layout.any (fun p => (size_dims_cmm p.1).1 = 0 ∨ (size_dims_cmm p.1).2 = 0)

/-- Spec §4.2 step 4: scan the shelves in creation order (the already
scanned ones are carried in `pre`, reversed) and widen the first shelf
whose used width leaves room and whose height admits the item. -/
def spec_first_fit (w h : Nat) (pre : List (Nat × Nat)) :
    List (Nat × Nat) → Option (List (Nat × Nat))
  | [] => none
  | s :: ss =>
    if s.1 + w ≤ SHEET_W_CMM ∧ h ≤ s.2 then some (pre.reverse ++ (s.1 + w, s.2) :: ss)
    else spec_first_fit w h ((s.1, s.2) :: pre) ss

/-- Spec §4.2 steps 4–6, placing one item: first-fit on an existing
shelf, else a new shelf of the item's height when the cumulative shelf
height plus the item height fits the sheet height and the item width
fits the sheet width, else the whole layout fails. -/
def spec_place_item (st : Option (List (Nat × Nat) × Nat)) (item : Nat × Nat) :
    Option (List (Nat × Nat) × Nat) :=
  match st with
  | none => none
  | some (shelves, used) =>
    match spec_first_fit item.1 item.2 [] shelves with
    | some shelves2 => some (shelves2, used + item.1 * item.2)
    | none =>
      if (shelves.map Prod.snd).sum + item.2 ≤ SHEET_H_CMM ∧ item.1 ≤ SHEET_W_CMM then
        some (shelves ++ [item], used + item.1 * item.2)
      else none

/-- Spec §4.2, the whole calculator as the specification words it. -/
def spec_utilization (layout : List (SizeTag × Nat)) : ℚ :=
  if spec_has_invalid_size layout then 0
  else
    match (sort_by_height_desc (spec_expand_items layout)).foldl spec_place_item
        (some ([], 0)) with
    | none => 0
    | some st =>
      let q : ℚ := (st.2 : ℚ) / (SHEET_AREA_CMM2 : ℚ)
      if q ≤ 1 then q else 0

/-! ### Template catalog (`_get_mixed_layout_templates`) -/

/-- A catalog template after catalog build: name, `size → count` layout,
static priority and the utilization computed for it. -/
structure LayoutTemplate where
  name : String
  layout : List (SizeTag × Nat)
  priority : Nat
  utilization : ℚ
deriving DecidableEq, Repr

/-- The 16 hand-curated templates of `_get_mixed_layout_templates`, in
source order, as `(name, layout, priority)`; the hardcoded
`'utilization'` entries of the source dicts are dead values (the builder
overwrites them for every template before filtering). -/
def layout_templates_raw : List (String × List (SizeTag × Nat) × Nat) := [
  ("1×A4 + 1×A5 + 4×100x70", [(SizeTag.a4, 1), (SizeTag.a5, 1), (SizeTag.s100x70, 4)], 15),
  ("2×A5 + 2×A6 + 4×100x70", [(SizeTag.a5, 2), (SizeTag.a6, 2), (SizeTag.s100x70, 4)], 15),
  ("1×A4 + 2×A6 + 8×100x70", [(SizeTag.a4, 1), (SizeTag.a6, 2), (SizeTag.s100x70, 8)], 14),
  ("2×A4 only", [(SizeTag.a4, 2)], 8),
  ("4×A5 only", [(SizeTag.a5, 4)], 8),
  ("8×A6 only", [(SizeTag.a6, 8)], 8),
  ("1×A5 + 3×A6 + 6×100x70", [(SizeTag.a5, 1), (SizeTag.a6, 3), (SizeTag.s100x70, 6)], 7),
  ("1×A4 + 6×95x95", [(SizeTag.a4, 1), (SizeTag.s95x95, 6)], 7),
  ("2×A5 + 8×95x95", [(SizeTag.a5, 2), (SizeTag.s95x95, 8)], 7),
  ("1×295x100 + 2×A6 + 6×60x60", [(SizeTag.s295x100, 1), (SizeTag.a6, 2), (SizeTag.s60x60, 6)], 6),
  ("1×290x140 + 1×A6 + 4×100x70", [(SizeTag.s290x140, 1), (SizeTag.a6, 1), (SizeTag.s100x70, 4)], 6),
  ("Max 100x70 only", [(SizeTag.s100x70, 40)], 12),
  ("Max 95x95 only", [(SizeTag.s95x95, 28)], 12),
  ("Max 60x60 only", [(SizeTag.s60x60, 72)], 11),
  ("2×295x100 only", [(SizeTag.s295x100, 2)], 5),
  ("1×A4 + 1×A6 + 2×295x100", [(SizeTag.a4, 1), (SizeTag.a6, 1), (SizeTag.s295x100, 2)], 5)]

/-- Catalog build: compute each template's utilization with the
calculator and keep only those with `0 < utilization ≤ 1`, attaching the
computed value. -/
def get_mixed_layout_templates : List LayoutTemplate :=
  (layout_templates_raw.map (fun r =>
    LayoutTemplate.mk r.1 r.2.1 r.2.2 (calculate_template_utilization r.2.1))).filter
    (fun tpl => decide (0 < tpl.utilization ∧ tpl.utilization ≤ 1))

/-! ### Combination selector (`_find_best_a3_combination` and helpers) -/

/-- `max(0, task.get_remaining_quantity() - run_allocations.get(task.id, 0))`:
the quantity of a task still available this run. -/
def available_quantity (alloc : Nat → Nat) (t : Task) : Nat :=
  get_remaining_quantity t - alloc t.id

/-- Append an `(task, available)` entry to the bucket of `size`, creating
the bucket at the end when the size key is new — the order Python's
insertion-ordered dict of lists produces. -/
def add_avail (inv : List (SizeTag × List (Task × Nat))) (size : SizeTag)
    (entry : Task × Nat) : List (SizeTag × List (Task × Nat)) :=
  match inv with
  | [] => [(size, [entry])]
  | (s, l) :: rest =>
    if s = size then (s, l ++ [entry]) :: rest else (s, l) :: add_avail rest size entry

/-- The `available_tasks` inventory of `_find_best_a3_combination`: walk
the pool in order and record, per non-a3 size, the tasks with positive
available quantity together with that quantity. -/
def build_available_tasks (tasks : List Task) (alloc : Nat → Nat) :
    List (SizeTag × List (Task × Nat)) :=
  tasks.foldl
    (fun inv t =>
      if t.size ≠ SizeTag.a3 ∧ 0 < available_quantity alloc t then
        add_avail inv t.size (t, available_quantity alloc t)
      else inv)
    []

/-- Bucket lookup (`available_tasks[size]`, `size in available_tasks`). -/
def find_bucket (inv : List (SizeTag × List (Task × Nat))) (size : SizeTag) :
    Option (List (Task × Nat)) :=
  match inv with
  | [] => none
  | (s, l) :: rest => if s = size then some l else find_bucket rest size

/-- The per-size allocation loop: draw up to `needed` units from the
bucket entries in the given (priority-sorted) order, each entry
contributing at most its available quantity.  Returns the drawn
`(task, quantity)` pairs, the quantity-weighted priority total and the
total item count. -/
def draw_from_bucket : List (Task × Nat) → Nat → List (Task × Nat) × Nat × Nat
  | _, 0 => ([], 0, 0)
  | [], _ + 1 => ([], 0, 0)
  | (t, avail) :: rest, needed + 1 =>
    let take := min avail (needed + 1)
    if 0 < take then
      let r := draw_from_bucket rest (needed + 1 - take)
      ((t, take) :: r.1, get_gang_priority t * take + r.2.1, take + r.2.2)
    else
      draw_from_bucket rest (needed + 1)

/-- The template-trial loop body of `_find_best_a3_combination`: for each
`(size, count)` requirement in layout order, the size must be present in
the inventory with enough total availability, and the required count is
drawn from its bucket in descending task-priority order; `none` models
`template_feasible = False`. -/
def try_template_layout (inv : List (SizeTag × List (Task × Nat))) :
    List (SizeTag × Nat) → Option (List (Task × Nat) × Nat × Nat)
  | [] => some ([], 0, 0)
  | (size, need) :: rest =>
    match find_bucket inv size with
    | none => none
    | some bucket =>
      let sorted := sort_desc_by (fun e => get_gang_priority e.1) bucket
      if (sorted.map (fun e => e.2)).sum < need then none
      else
        let drawn := draw_from_bucket sorted need
        match try_template_layout inv rest with
        | none => none
        | some (comb, tp, ti) =>
          some (drawn.1 ++ comb, drawn.2.1 + tp, drawn.2.2 + ti)

/-- The enhanced weighted score of a feasible template's combination:
`template_priority * 300 + utilization * 2000 + avg_task_priority * 25 +
total_items * 8`. -/
def score_of (tpl : LayoutTemplate) (tp ti : Nat) : ℚ :=
  let avg : ℚ := if 0 < ti then (tp : ℚ) / (ti : ℚ) else 0
  (tpl.priority : ℚ) * 300 + tpl.utilization * 2000 + avg * 25 + (ti : ℚ) * 8

/-- Trial loop over the priority-sorted templates, keeping the feasible
non-empty combination of strictly highest score (`best_score` starts
at 0). -/
def find_best_from_templates (inv : List (SizeTag × List (Task × Nat))) :
    List LayoutTemplate → List (Task × Nat) × ℚ → List (Task × Nat) × ℚ
  | [], best => best
  | tpl :: rest, best =>
    match try_template_layout inv tpl.layout with
    | none => find_best_from_templates inv rest best
    | some (comb, tp, ti) =>
      if ¬comb.isEmpty ∧ best.2 < score_of tpl tp ti then
        find_best_from_templates inv rest (comb, score_of tpl tp ti)
      else find_best_from_templates inv rest best

/-- One size's candidate in `_find_single_size_combination`: skip empty
buckets and sizes with zero sheet capacity, else draw up to the true
single-size capacity in descending priority order and score by
`fill_fraction * 800 + avg_priority * 10 + quantity`. -/
def single_size_candidate (size : SizeTag) (bucket : List (Task × Nat)) :
    Option (List (Task × Nat) × ℚ) :=
  if bucket.isEmpty then none
  else
    let max_fit := get_fits_on_a3 size
    if max_fit = 0 then none
    else
      let sorted := sort_desc_by (fun e => get_gang_priority e.1) bucket
      let drawn := draw_from_bucket sorted max_fit
      if drawn.1.isEmpty then none
      else
        let qty := drawn.2.2
        let u : ℚ := (qty : ℚ) / (max_fit : ℚ)
        let avg : ℚ := if 0 < qty then (drawn.2.1 : ℚ) / (qty : ℚ) else 0
        some (drawn.1, u * 800 + avg * 10 + (qty : ℚ))

/-- The `for size, task_list in available_tasks.items()` loop of
`_find_single_size_combination`, carrying the best `(combination, score)`
seen so far (strict improvement only). -/
def find_single_size_aux :
    List (SizeTag × List (Task × Nat)) → List (Task × Nat) × ℚ →
      List (Task × Nat) × ℚ
  | [], best => best
  | p :: rest, best =>
    match single_size_candidate p.1 p.2 with
    | none => find_single_size_aux rest best
    | some c =>
      if best.2 < c.2 then find_single_size_aux rest c
      else find_single_size_aux rest best

/-- `_find_single_size_combination`: best single-size draw across the
inventory, ties keeping the earlier size. -/
def find_single_size_combination (inv : List (SizeTag × List (Task × Nat))) :
    List (Task × Nat) :=
  (find_single_size_aux inv ([], 0)).1

/-- The a3 branch of `_find_best_a3_combination`: walk the a3 tasks in
descending priority order and return a singleton of quantity 1 for the
first with available quantity, else nothing. -/
def find_a3_single (alloc : Nat → Nat) : List Task → List (Task × Nat)
  | [] => []
  | t :: ts => if 1 ≤ available_quantity alloc t then [(t, 1)] else find_a3_single alloc ts

/-- `_find_best_a3_combination`: a3 tasks are handled by the singleton
branch; otherwise the inventory is built, the catalog templates are
tried in descending priority, and the single-size fallback is used when
no template produced a combination. -/
def find_best_a3_combination (tasks : List Task) (alloc : Nat → Nat) :
    List (Task × Nat) :=
  let a3_tasks := tasks.filter (fun t => t.size = SizeTag.a3)
  if a3_tasks.isEmpty then
    let inv := build_available_tasks tasks alloc
    if inv.isEmpty then []
    else
      let sorted_templates := sort_desc_by LayoutTemplate.priority get_mixed_layout_templates
      let best := find_best_from_templates inv sorted_templates ([], 0)
      if best.1.isEmpty then find_single_size_combination inv else best.1
  else find_a3_single alloc (sort_desc_by get_gang_priority a3_tasks)

/-- `_should_gang_combination`: empty combinations are never ganged; any
task at the 100-point urgency threshold forces ganging; otherwise gang
when the individually cost-effective tasks are at least half
(`cost_effective_count >= len(tasks) / 2`, exact division). -/
def should_gang_combination (combination : List (Task × Nat)) : Bool :=
  if combination.isEmpty then false
  else
    let tasks := combination.map Prod.fst
    if tasks.any (fun t => 100 ≤ get_gang_priority t) then true
    else if tasks.isEmpty then false
    else
      let cnt := (tasks.filter (fun t => is_cost_effective_to_gang t t.size t.parsedQty)).length
      decide (((tasks.length : ℚ) / 2) ≤ (cnt : ℚ))

/-! ### Compatibility grouping (`_group_by_compatibility`,
`_create_cross_compatibility_pools`) -/

/-- The primary compatibility key of `_group_by_compatibility`. -/
def group_key (t : Task) : String :=
  match t.productType with
  | ProductType.zero => "zero_group"
  | ProductType.full_colour => "full_colour"
  | ProductType.single_colour => "single_colour_group"
  | ProductType.metal => "metal"
  | ProductType.untyped => "unknown_group"

/-- Append a task to its group, creating the group at the end when the
key is new (Python's insertion-ordered dict of lists). -/
def add_to_group (gs : List (String × List Task)) (k : String) (t : Task) :
    List (String × List Task) :=
  match gs with
  | [] => [(k, [t])]
  | (k0, l) :: rest =>
    if k0 = k then (k0, l ++ [t]) :: rest else (k0, l) :: add_to_group rest k t

/-- `_group_by_compatibility`. -/
def group_by_compatibility (tasks : List Task) : List (String × List Task) :=
  tasks.foldl (fun gs t => add_to_group gs (group_key t) t) []

/-- `unprocessed_groups.get(key, [])`. -/
def lookup_group (gs : List (String × List Task)) (k : String) : List Task :=
  match gs with
  | [] => []
  | (k0, l) :: rest => if k0 = k then l else lookup_group rest k

/-- `_create_cross_compatibility_pools`: pool 1 is full-colour plus white
single-colour, pool 2 is metal plus silver single-colour, pool 3 is the
remaining single-colour tasks; each pool is emitted only when non-empty.
The `zero_group` key is never consulted. -/
def create_cross_compatibility_pools (unprocessed : List (String × List Task)) :
    List (List Task) :=
  let full_colour_tasks := lookup_group unprocessed "full_colour"
  let single_colour_tasks := lookup_group unprocessed "single_colour_group"
  let metal_tasks := lookup_group unprocessed "metal"
  let single_white_tasks :=
    single_colour_tasks.filter (fun t => t.colorVariant = some ColorVariant.white)
  let pool1 : List (List Task) :=
    if full_colour_tasks.isEmpty ∧ single_white_tasks.isEmpty then []
    else [full_colour_tasks ++ single_white_tasks]
  let single_silver_tasks :=
    single_colour_tasks.filter (fun t => t.colorVariant = some ColorVariant.silver)
  let pool2 : List (List Task) :=
    if metal_tasks.isEmpty ∧ single_silver_tasks.isEmpty then []
    else [metal_tasks ++ single_silver_tasks]
  let other_single_tasks := single_colour_tasks.filter
    (fun t => t.colorVariant ≠ some ColorVariant.white ∧
              t.colorVariant ≠ some ColorVariant.silver)
  let pool3 : List (List Task) :=
    if other_single_tasks.isEmpty then [] else [other_single_tasks]
  pool1 ++ pool2 ++ pool3

/-! ### Allocation tracking (`_process_compatibility_group`) -/

/-- `max_sheets_per_lay = 12`. -/
def MAX_SHEETS_PER_LAY : Nat := 12

/-- `run_allocations[id] += qty` as a pointwise map update. -/
def update_alloc (alloc : Nat → Nat) (id qty : Nat) : Nat → Nat :=
  fun i => if i = id then alloc id + qty else alloc i

/-- `lay_assignments[stage].append((task_id, quantity))`, creating the
stage entry on first use (the source initialises the key with an empty
list when a stage is acquired; an empty entry contributes nothing to any
sum, so creating it at the first append is equivalent). -/
def append_assign (assigns : List (Nat × List (Nat × Nat))) (stage tid qty : Nat) :
    List (Nat × List (Nat × Nat)) :=
  match assigns with
  | [] => [(stage, [(tid, qty)])]
  | (s, l) :: rest =>
    if s = stage then (s, l ++ [(tid, qty)]) :: rest
    else (s, l) :: append_assign rest stage tid qty

/-- Result of the commit loop over one combination. -/
structure CommitResult where
  alloc : Nat → Nat
  assigns : List (Nat × List (Nat × Nat))
  allocated : Nat
  to_remove : List Task

/-- The `for item in best_combination` commit loop of
`_process_compatibility_group` (the dict branch, the only shape
`_find_best_a3_combination` produces): each item increments the task's
run allocation, appends a LAY assignment for the current stage, adds to
the per-template total, and marks the task for removal once its
accumulated allocation reaches its remaining quantity. -/
def commit_items (stage : Nat) (remaining : List Task) (alloc0 : Nat → Nat)
    (assigns0 : List (Nat × List (Nat × Nat))) (items : List (Task × Nat)) :
    CommitResult :=
  items.foldl
    (fun r item =>
      let t := item.1
      let q := item.2
      let alloc2 := update_alloc r.alloc t.id q
      let assigns2 := append_assign r.assigns stage t.id q
      let remove2 :=
        if get_remaining_quantity t ≤ alloc2 t.id ∧ t ∈ remaining then
          r.to_remove ++ [t]
        else r.to_remove
      CommitResult.mk alloc2 assigns2 (r.allocated + q) remove2)
    (CommitResult.mk alloc0 assigns0 0 [])

/-- `for task in tasks_to_remove: remaining_tasks.remove(task)` — remove
the first occurrence of each marked task. -/
def remove_tasks (remaining : List Task) (to_remove : List Task) : List Task :=
  to_remove.foldl (fun rem t => rem.erase t) remaining

/-- The run-local state of one `_process_compatibility_group` call:
the work list, the queue of LAY stage ids, the stage currently being
consolidated with its sheet count, and the run-wide Allocation Record
and Slot Assignment Map. -/
structure GroupState where
  remaining_tasks : List Task
  lay_stages : List Nat
  current_lay : Option Nat
  sheets_in_current : Nat
  alloc : Nat → Nat
  assigns : List (Nat × List (Nat × Nat))
  allocated_qty : Nat

/-- The consolidation logic acquiring a LAY stage: keep the current one
below the sheet cap, else pop the next from the queue (`None` when the
queue is exhausted), resetting the sheet count. -/
def acquire_stage (st : GroupState) : Option Nat × List Nat × Nat :=
  if st.current_lay = none ∨ MAX_SHEETS_PER_LAY ≤ st.sheets_in_current then
    match st.lay_stages with
    | [] => (none, [], 0)
    | s :: rest => (some s, rest, 0)
  else (st.current_lay, st.lay_stages, st.sheets_in_current)

/-- The state after committing one combination to a stage: the commit
loop's allocation and assignment updates, the fully consumed tasks
removed, the LAY queue and sheet counter advanced by `acquire_stage`
(the sheet count incremented for the committed sheet), and the per-group
allocated total increased. -/
def commit_state (st : GroupState) (stage : Nat) (items : List (Task × Nat)) :
    GroupState :=
  let r := commit_items stage st.remaining_tasks st.alloc st.assigns items
  { remaining_tasks := remove_tasks st.remaining_tasks r.to_remove,
    lay_stages := (acquire_stage st).2.1,
    current_lay := some stage,
    sheets_in_current := (acquire_stage st).2.2 + 1,
    alloc := r.alloc,
    assigns := r.assigns,
    allocated_qty := st.allocated_qty + r.allocated }

/-- The `while remaining_tasks and lay_stages` loop of
`_process_compatibility_group`, fuelled (the source loop terminates
because every committed combination allocates at least one unit).
Breaks: no combination found; combination not worth ganging and no
critical item in it; LAY queue exhausted when a stage is needed.  In the
not-worth-ganging branch only the critical subset (priority ≥ 100) is
committed; `_should_gang_combination` returns True whenever such an item
exists, so that branch's commit arm is unreachable, but it is embedded
as written. -/
def group_loop : Nat → GroupState → GroupState
  | 0, st => st
  | fuel + 1, st =>
    if st.remaining_tasks.isEmpty ∨ st.lay_stages.isEmpty then st
    else if (find_best_a3_combination st.remaining_tasks st.alloc).isEmpty then st
    else if should_gang_combination
        (find_best_a3_combination st.remaining_tasks st.alloc) then
      match (acquire_stage st).1 with
      | none =>
        { st with lay_stages := (acquire_stage st).2.1, current_lay := none,
                  sheets_in_current := (acquire_stage st).2.2 }
      | some stage =>
        group_loop fuel (commit_state st stage
          (find_best_a3_combination st.remaining_tasks st.alloc))
    else if ((find_best_a3_combination st.remaining_tasks st.alloc).filter
        (fun item => 100 ≤ get_gang_priority item.1)).isEmpty then st
    else
      match (acquire_stage st).1 with
      | none =>
        group_loop fuel
          { st with lay_stages := (acquire_stage st).2.1, current_lay := none,
                    sheets_in_current := (acquire_stage st).2.2 }
      | some stage =>
        group_loop fuel (commit_state st stage
          ((find_best_a3_combination st.remaining_tasks st.alloc).filter
            (fun item => 100 ≤ get_gang_priority item.1)))

/-- Total quantity the Slot Assignment Map records for one task id,
summed across every slot entry. -/
def assigns_total (assigns : List (Nat × List (Nat × Nat))) (tid : Nat) : Nat :=
  (assigns.map (fun p => ((p.2.filter (fun e => e.1 = tid)).map (fun e => e.2)).sum)).sum

/-- Total quantity a combination assigns to one task id. -/
def comb_total (combination : List (Task × Nat)) (tid : Nat) : Nat :=
  ((combination.filter (fun e => e.1.id = tid)).map (fun e => e.2)).sum

/-- Sum of `usedWidth * shelfHeight` over the shelves: an upper bound on
the area consumed so far. -/
def shelf_used_area (shelves : List (Nat × Nat)) : Nat :=
  (shelves.map (fun s => s.1 * s.2)).sum

/-- Cumulative height of the shelves (`new_shelf_y` with zero gutters). -/
def shelves_height (shelves : List (Nat × Nat)) : Nat :=
  (shelves.map Prod.snd).sum

/-- Number of item instances a layout describes. -/
def layout_item_count (layout : List (SizeTag × Nat)) : Nat :=
  (layout.map Prod.snd).sum

/-- All `(task, availability)` entries of an inventory, every bucket
concatenated. -/
def inv_flat (inv : List (SizeTag × List (Task × Nat))) : List (Task × Nat) :=
  inv.flatMap Prod.snd

/-- The bucket an inventory holds for a size (empty when absent). -/
def bucket_of (inv : List (SizeTag × List (Task × Nat))) (size : SizeTag) :
    List (Task × Nat) :=
  (find_bucket inv size).getD []

/-- Availability a list of `(size, count)` requirements can draw for one
task id: the per-id totals of the buckets of all its sizes. -/
def layout_avail (inv : List (SizeTag × List (Task × Nat)))
    (layout : List (SizeTag × Nat)) (tid : Nat) : Nat :=
  (layout.map (fun p => comb_total (bucket_of inv p.1) tid)).sum

/-! ## Lemmas about the stable descending insertion sort -/

theorem insert_desc_by_perm {α : Type} (key : α → Nat) (x : α) :
    ∀ l : List α, List.Perm (insert_desc_by key x l) (x :: l) := by
  intro l
  induction l with
  | nil => simp [insert_desc_by]
  | cons y ys ih =>
    by_cases hc : key y < key x
    · simp [insert_desc_by, hc]
    · simp only [insert_desc_by, hc, if_false]
      exact ((ih.cons y).trans (List.Perm.swap x y ys))

theorem sort_desc_by_aux_perm {α : Type} (key : α → Nat) :
    ∀ (l acc : List α),
      List.Perm (l.foldl (fun a x => insert_desc_by key x a) acc) (acc ++ l) := by
  intro l
  induction l with
  | nil => intro acc; simp
  | cons x xs ih =>
    intro acc
    have h1 := ih (insert_desc_by key x acc)
    have h2 : List.Perm (insert_desc_by key x acc ++ xs) ((x :: acc) ++ xs) :=
      (insert_desc_by_perm key x acc).append_right xs
    have h3 : List.Perm ((x :: acc) ++ xs) (acc ++ x :: xs) := by
      simpa using List.perm_middle.symm
    exact (h1.trans h2).trans h3

/-- The sort is a permutation of its input. -/
theorem sort_desc_by_perm {α : Type} (key : α → Nat) (l : List α) :
    List.Perm (sort_desc_by key l) l := by
  simpa using sort_desc_by_aux_perm key l []

theorem insert_desc_by_sorted {α : Type} (key : α → Nat) (x : α) :
    ∀ l : List α, List.Sorted (fun a b => key b ≤ key a) l →
      List.Sorted (fun a b => key b ≤ key a) (insert_desc_by key x l) := by
  intro l
  induction l with
  | nil => intro _; simp [insert_desc_by]
  | cons y ys ih =>
    intro h
    rw [List.sorted_cons] at h
    by_cases hc : key y < key x
    · simp only [insert_desc_by, hc, if_true]
      rw [List.sorted_cons]
      refine ⟨?_, ?_⟩
      · intro b hb
        rcases List.mem_cons.mp hb with hb | hb
        · exact hb ▸ le_of_lt hc
        · exact le_trans (h.1 b hb) (le_of_lt hc)
      · rw [List.sorted_cons]; exact h
    · simp only [insert_desc_by, hc, if_false]
      rw [List.sorted_cons]
      refine ⟨?_, ih h.2⟩
      intro b hb
      have hb2 : b ∈ x :: ys := (insert_desc_by_perm key x ys).mem_iff.mp hb
      rcases List.mem_cons.mp hb2 with hb3 | hb3
      · exact hb3 ▸ le_of_not_lt hc
      · exact h.1 b hb3

theorem sort_desc_by_aux_sorted {α : Type} (key : α → Nat) :
    ∀ (l acc : List α), List.Sorted (fun a b => key b ≤ key a) acc →
      List.Sorted (fun a b => key b ≤ key a)
        (l.foldl (fun a x => insert_desc_by key x a) acc) := by
  intro l
  induction l with
  | nil => intro acc h; simpa using h
  | cons x xs ih =>
    intro acc h
    exact ih (insert_desc_by key x acc) (insert_desc_by_sorted key x acc h)

/-- The sort is descending on the key. -/
theorem sort_desc_by_sorted {α : Type} (key : α → Nat) (l : List α) :
    List.Sorted (fun a b => key b ≤ key a) (sort_desc_by key l) :=
  sort_desc_by_aux_sorted key l [] (by simp)

theorem filter_insert_desc_by {α : Type} (key : α → Nat) (k : Nat) (x : α) :
    ∀ l : List α, List.Sorted (fun a b => key b ≤ key a) l →
      (insert_desc_by key x l).filter (fun z => key z = k) =
        if key x = k then l.filter (fun z => key z = k) ++ [x]
        else l.filter (fun z => key z = k) := by
  intro l
  induction l with
  | nil =>
    intro _
    by_cases hx : key x = k <;> simp [insert_desc_by, hx]
  | cons y ys ih =>
    intro h
    rw [List.sorted_cons] at h
    by_cases hc : key y < key x
    · simp only [insert_desc_by, hc, if_true]
      by_cases hx : key x = k
      · have hail : ∀ z ∈ y :: ys, ¬ (key z = k) := by
          intro z hz
          have hzy : key z ≤ key y := by
            rcases List.mem_cons.mp hz with hz2 | hz2
            · exact hz2 ▸ le_refl _
            · exact h.1 z hz2
          omega
        have hnil : (y :: ys).filter (fun z => key z = k) = [] := by
          rw [List.filter_eq_nil_iff]
          intro a ha
          simpa using hail a ha
        simp [hx, hnil]
      · simp [hx, List.filter_cons]
    · simp only [insert_desc_by, hc, if_false]
      by_cases hy : key y = k <;> by_cases hx : key x = k <;>
        simp [List.filter_cons, hy, hx, ih h.2]

theorem filter_sort_desc_by_aux {α : Type} (key : α → Nat) (k : Nat) :
    ∀ (l acc : List α), List.Sorted (fun a b => key b ≤ key a) acc →
      (l.foldl (fun a x => insert_desc_by key x a) acc).filter (fun z => key z = k) =
        acc.filter (fun z => key z = k) ++ l.filter (fun z => key z = k) := by
  intro l
  induction l with
  | nil => intro acc _; simp
  | cons x xs ih =>
    intro acc h
    rw [List.foldl_cons, ih (insert_desc_by key x acc) (insert_desc_by_sorted key x acc h),
      filter_insert_desc_by key k x acc h]
    by_cases hx : key x = k <;> simp [hx, List.filter_cons]

/-- Stability of the sort: elements sharing any key value keep their
original relative order. -/
theorem sort_desc_by_stable {α : Type} (key : α → Nat) (k : Nat) (l : List α) :
    (sort_desc_by key l).filter (fun z => key z = k) =
      l.filter (fun z => key z = k) := by
  simpa using filter_sort_desc_by_aux key k l []

/-! ## Lemmas about the shelf-packing calculator -/

theorem expand_layout_eq (layout : List (SizeTag × Nat)) :
    expand_layout layout =
      if spec_has_invalid_size layout then none else some (spec_expand_items layout) := by
  induction layout with
  | nil => simp [expand_layout, spec_has_invalid_size, spec_expand_items]
  | cons p rest ih =>
    have hany : spec_has_invalid_size (p :: rest) =
        (decide ((size_dims_cmm p.1).1 = 0 ∨ (size_dims_cmm p.1).2 = 0) ||
          spec_has_invalid_size rest) := by
      simp [spec_has_invalid_size]
    by_cases hp : (size_dims_cmm p.1).1 = 0 ∨ (size_dims_cmm p.1).2 = 0
    · rw [show expand_layout (p :: rest) = none by simp [expand_layout, hp]]
      rw [hany]
      simp [hp]
    · rw [show expand_layout (p :: rest) =
          (match expand_layout rest with
           | none => none
           | some items => some (List.replicate p.2 (size_dims_cmm p.1) ++ items)) by
        simp [expand_layout, hp]]
      rw [ih, hany]
      by_cases hr : spec_has_invalid_size rest
      · simp [hr, hp]
      · simp [hr, hp, spec_expand_items]

theorem foldl_spec_place_none (items : List (Nat × Nat)) :
    items.foldl spec_place_item none = none := by
  induction items with
  | nil => rfl
  | cons x xs ih => simpa [spec_place_item] using ih

theorem spec_first_fit_eq (w h : Nat) :
    ∀ (shelves pre : List (Nat × Nat)),
      spec_first_fit w h pre shelves =
        Option.map (fun s2 => pre.reverse ++ s2) (try_shelves w h shelves) := by
  intro shelves
  induction shelves with
  | nil => intro pre; simp [spec_first_fit, try_shelves]
  | cons s ss ih =>
    intro pre
    by_cases hc : s.1 + w ≤ SHEET_W_CMM ∧ h ≤ s.2
    · simp [spec_first_fit, try_shelves, hc]
    · simp only [spec_first_fit, try_shelves, hc, if_false]
      rw [ih ((s.1, s.2) :: pre)]
      cases try_shelves w h ss with
      | none => simp
      | some ss2 => simp

theorem foldl_spec_place_eq :
    ∀ (items : List (Nat × Nat)) (shelves : List (Nat × Nat)) (area : Nat),
      Option.map Prod.snd (items.foldl spec_place_item (some (shelves, area))) =
        pack_items items shelves area := by
  intro items
  induction items with
  | nil => intro shelves area; simp [pack_items]
  | cons x xs ih =>
    intro shelves area
    rw [List.foldl_cons]
    show Option.map Prod.snd (xs.foldl spec_place_item (spec_place_item (some (shelves, area)) x)) = _
    rw [show spec_place_item (some (shelves, area)) x =
        (match spec_first_fit x.1 x.2 [] shelves with
         | some shelves2 => some (shelves2, area + x.1 * x.2)
         | none =>
           if (shelves.map Prod.snd).sum + x.2 ≤ SHEET_H_CMM ∧ x.1 ≤ SHEET_W_CMM then
             some (shelves ++ [x], area + x.1 * x.2)
           else none) from rfl]
    rw [spec_first_fit_eq x.1 x.2 shelves []]
    cases htry : try_shelves x.1 x.2 shelves with
    | some shelves2 =>
      simp only [Option.map_some', List.reverse_nil, List.nil_append]
      rw [show pack_items (x :: xs) shelves area = pack_items xs shelves2 (area + x.1 * x.2) by
        cases x with
        | mk w h => simp [pack_items, htry]]
      exact ih shelves2 (area + x.1 * x.2)
    | none =>
      simp only [Option.map_none']
      by_cases hg : (shelves.map Prod.snd).sum + x.2 ≤ SHEET_H_CMM ∧ x.1 ≤ SHEET_W_CMM
      · simp only [hg, if_true]
        rw [show pack_items (x :: xs) shelves area =
            pack_items xs (shelves ++ [x]) (area + x.1 * x.2) by
          cases x with
          | mk w h => simp [pack_items, htry, hg]]
        exact ih (shelves ++ [x]) (area + x.1 * x.2)
      · simp only [hg, if_false]
        rw [show pack_items (x :: xs) shelves area = none by
          cases x with
          | mk w h =>
            simp only [pack_items, htry]
            exact if_neg hg]
        rw [foldl_spec_place_none xs]
        rfl

theorem try_shelves_heights (w h : Nat) :
    ∀ shelves s2, try_shelves w h shelves = some s2 →
      s2.map Prod.snd = shelves.map Prod.snd := by
  intro shelves
  induction shelves with
  | nil => intro s2 hs; simp [try_shelves] at hs
  | cons s ss ih =>
    intro s2 hs
    cases s with
    | mk sw sh =>
      by_cases hc : sw + w ≤ SHEET_W_CMM ∧ h ≤ sh
      · simp only [try_shelves] at hs
        rw [if_pos hc] at hs
        simp only [Option.some_inj] at hs
        subst hs; simp
      · simp only [try_shelves] at hs
        rw [if_neg hc] at hs
        cases hrec : try_shelves w h ss with
        | none => rw [hrec] at hs; simp at hs
        | some ss2 =>
          rw [hrec] at hs
          simp only [Option.some_inj] at hs
          subst hs
          simp [ih ss2 hrec]

theorem try_shelves_widths (w h : Nat) :
    ∀ shelves s2, try_shelves w h shelves = some s2 →
      (∀ s ∈ shelves, s.1 ≤ SHEET_W_CMM) → ∀ s ∈ s2, s.1 ≤ SHEET_W_CMM := by
  intro shelves
  induction shelves with
  | nil => intro s2 hs; simp [try_shelves] at hs
  | cons s ss ih =>
    intro s2 hs hw
    cases s with
    | mk sw sh =>
      by_cases hc : sw + w ≤ SHEET_W_CMM ∧ h ≤ sh
      · simp only [try_shelves] at hs
        rw [if_pos hc] at hs
        simp only [Option.some_inj] at hs
        subst hs
        intro s hs2
        rcases List.mem_cons.mp hs2 with h1 | h1
        · subst h1; exact hc.1
        · exact hw s (List.mem_cons_of_mem _ h1)
      · simp only [try_shelves] at hs
        rw [if_neg hc] at hs
        cases hrec : try_shelves w h ss with
        | none => rw [hrec] at hs; simp at hs
        | some ss2 =>
          rw [hrec] at hs
          simp only [Option.some_inj] at hs
          subst hs
          intro s hs2
          rcases List.mem_cons.mp hs2 with h1 | h1
          · subst h1; exact hw (sw, sh) (List.mem_cons_self _ _)
          · exact ih ss2 hrec (fun a ha => hw a (List.mem_cons_of_mem _ ha)) s h1

theorem try_shelves_area (w h : Nat) :
    ∀ shelves s2, try_shelves w h shelves = some s2 →
      shelf_used_area shelves + w * h ≤ shelf_used_area s2 := by
  intro shelves
  induction shelves with
  | nil => intro s2 hs; simp [try_shelves] at hs
  | cons s ss ih =>
    intro s2 hs
    cases s with
    | mk sw sh =>
      by_cases hc : sw + w ≤ SHEET_W_CMM ∧ h ≤ sh
      · simp only [try_shelves] at hs
        rw [if_pos hc] at hs
        simp only [Option.some_inj] at hs
        subst hs
        have : w * h ≤ w * sh := Nat.mul_le_mul_left w hc.2
        simp only [shelf_used_area, List.map_cons, List.sum_cons]
        nlinarith [Nat.add_mul sw w sh]
      · simp only [try_shelves] at hs
        rw [if_neg hc] at hs
        cases hrec : try_shelves w h ss with
        | none => rw [hrec] at hs; simp at hs
        | some ss2 =>
          rw [hrec] at hs
          simp only [Option.some_inj] at hs
          subst hs
          have := ih ss2 hrec
          simp only [shelf_used_area, List.map_cons, List.sum_cons] at *
          omega

theorem shelf_used_area_le (shelves : List (Nat × Nat))
    (hw : ∀ s ∈ shelves, s.1 ≤ SHEET_W_CMM) :
    shelf_used_area shelves ≤ SHEET_W_CMM * shelves_height shelves := by
  induction shelves with
  | nil => simp [shelf_used_area, shelves_height]
  | cons s ss ih =>
    have h1 : s.1 * s.2 ≤ SHEET_W_CMM * s.2 :=
      Nat.mul_le_mul_right s.2 (hw s (List.mem_cons_self _ _))
    have h2 := ih (fun a ha => hw a (List.mem_cons_of_mem _ ha))
    simp only [shelf_used_area, shelves_height, List.map_cons, List.sum_cons,
      Nat.mul_add] at *
    omega

theorem pack_items_area :
    ∀ (items shelves : List (Nat × Nat)) (area A : Nat),
      pack_items items shelves area = some A →
      A = area + (items.map (fun p => p.1 * p.2)).sum := by
  intro items
  induction items with
  | nil =>
    intro shelves area A hp
    simp only [pack_items, Option.some_inj] at hp
    simp [hp.symm]
  | cons x xs ih =>
    intro shelves area A hp
    cases x with
    | mk w h =>
      simp only [pack_items] at hp
      cases htry : try_shelves w h shelves with
      | some s2 =>
        rw [htry] at hp
        have := ih s2 (area + w * h) A hp
        simp only [List.map_cons, List.sum_cons]
        omega
      | none =>
        rw [htry] at hp
        by_cases hg : (shelves.map Prod.snd).sum + h ≤ SHEET_H_CMM ∧ w ≤ SHEET_W_CMM
        · rw [if_pos hg] at hp
          have := ih (shelves ++ [(w, h)]) (area + w * h) A hp
          simp only [List.map_cons, List.sum_cons]
          omega
        · rw [if_neg hg] at hp; simp at hp

theorem pack_items_bound :
    ∀ (items shelves : List (Nat × Nat)) (area A : Nat),
      area ≤ shelf_used_area shelves →
      (∀ s ∈ shelves, s.1 ≤ SHEET_W_CMM) →
      shelves_height shelves ≤ SHEET_H_CMM →
      pack_items items shelves area = some A →
      A ≤ SHEET_AREA_CMM2 := by
  intro items
  induction items with
  | nil =>
    intro shelves area A h1 h2 h3 hp
    simp only [pack_items, Option.some_inj] at hp
    subst hp
    calc area ≤ shelf_used_area shelves := h1
      _ ≤ SHEET_W_CMM * shelves_height shelves := shelf_used_area_le shelves h2
      _ ≤ SHEET_W_CMM * SHEET_H_CMM := Nat.mul_le_mul_left _ h3
      _ = SHEET_AREA_CMM2 := rfl
  | cons x xs ih =>
    intro shelves area A h1 h2 h3 hp
    cases x with
    | mk w h =>
      simp only [pack_items] at hp
      cases htry : try_shelves w h shelves with
      | some s2 =>
        rw [htry] at hp
        refine ih s2 (area + w * h) A ?_ (try_shelves_widths w h shelves s2 htry h2) ?_ hp
        · have := try_shelves_area w h shelves s2 htry
          omega
        · unfold shelves_height at *
          rw [try_shelves_heights w h shelves s2 htry]
          exact h3
      | none =>
        rw [htry] at hp
        by_cases hg : (shelves.map Prod.snd).sum + h ≤ SHEET_H_CMM ∧ w ≤ SHEET_W_CMM
        · rw [if_pos hg] at hp
          refine ih (shelves ++ [(w, h)]) (area + w * h) A ?_ ?_ ?_ hp
          · simp only [shelf_used_area, List.map_append, List.sum_append,
              List.map_cons, List.sum_cons, List.map_nil, List.sum_nil]
            unfold shelf_used_area at h1
            omega
          · intro s hs
            rcases List.mem_append.mp hs with hs | hs
            · exact h2 s hs
            · rcases List.mem_singleton.mp hs with rfl
              exact hg.2
          · simp only [shelves_height, List.map_append, List.sum_append,
              List.map_cons, List.sum_cons, List.map_nil, List.sum_nil]
            have := hg.1
            unfold shelves_height at h3
            omega
        · rw [if_neg hg] at hp; simp at hp

theorem try_shelves_none_wide (w h : Nat) (hw : SHEET_W_CMM < w) :
    ∀ shelves, try_shelves w h shelves = none := by
  intro shelves
  induction shelves with
  | nil => rfl
  | cons s ss ih =>
    cases s with
    | mk sw sh =>
      have hc : ¬ (sw + w ≤ SHEET_W_CMM ∧ h ≤ sh) := by omega
      simp only [try_shelves, hc, if_false, ih]

theorem try_shelves_none_tall (w h : Nat) (hh : SHEET_H_CMM < h) :
    ∀ shelves, (∀ s ∈ shelves, s.2 ≤ SHEET_H_CMM) →
      try_shelves w h shelves = none := by
  intro shelves
  induction shelves with
  | nil => intro _; rfl
  | cons s ss ih =>
    intro hs
    cases s with
    | mk sw sh =>
      have hsh : sh ≤ SHEET_H_CMM := hs (sw, sh) (List.mem_cons_self _ _)
      have hc : ¬ (sw + w ≤ SHEET_W_CMM ∧ h ≤ sh) := by omega
      simp only [try_shelves, hc, if_false,
        ih (fun a ha => hs a (List.mem_cons_of_mem _ ha))]

theorem pack_items_oversize :
    ∀ (items shelves : List (Nat × Nat)) (area : Nat),
      shelves_height shelves ≤ SHEET_H_CMM →
      (∃ p ∈ items, SHEET_W_CMM < p.1 ∨ SHEET_H_CMM < p.2) →
      pack_items items shelves area = none := by
  intro items
  induction items with
  | nil =>
    intro shelves area _ hbad
    simp at hbad
  | cons x xs ih =>
    intro shelves area hh hbad
    cases x with
    | mk w h =>
      have hshelf : ∀ s ∈ shelves, s.2 ≤ SHEET_H_CMM := by
        intro s hs
        have : s.2 ∈ shelves.map Prod.snd := List.mem_map_of_mem Prod.snd hs
        exact le_trans (List.single_le_sum (fun a _ => Nat.zero_le a) s.2 this) hh
      rcases hbad with ⟨p, hp, hcase⟩
      rcases List.mem_cons.mp hp with hp1 | hp1
      · have hbadp : SHEET_W_CMM < w ∨ SHEET_H_CMM < h := by
          rw [hp1] at hcase; exact hcase
        have htry : try_shelves w h shelves = none := by
          rcases hbadp with hw | hh2
          · exact try_shelves_none_wide w h hw shelves
          · exact try_shelves_none_tall w h hh2 shelves hshelf
        have hg : ¬ ((shelves.map Prod.snd).sum + h ≤ SHEET_H_CMM ∧ w ≤ SHEET_W_CMM) := by
          unfold shelves_height at hh
          omega
        simp only [pack_items, htry]
        exact if_neg hg
      · simp only [pack_items]
        cases htry : try_shelves w h shelves with
        | some s2 =>
          refine ih s2 (area + w * h) ?_ ⟨p, hp1, hcase⟩
          unfold shelves_height
          rw [try_shelves_heights w h shelves s2 htry]
          exact hh
        | none =>
          by_cases hg : (shelves.map Prod.snd).sum + h ≤ SHEET_H_CMM ∧ w ≤ SHEET_W_CMM
          · rw [if_pos hg]
            refine ih (shelves ++ [(w, h)]) (area + w * h) ?_ ⟨p, hp1, hcase⟩
            simp only [shelves_height, List.map_append, List.sum_append,
              List.map_cons, List.sum_cons, List.map_nil, List.sum_nil]
            have := hg.1
            omega
          · exact if_neg hg

theorem expand_layout_pos :
    ∀ (layout : List (SizeTag × Nat)) (items : List (Nat × Nat)),
      expand_layout layout = some items → ∀ p ∈ items, 0 < p.1 ∧ 0 < p.2 := by
  intro layout
  induction layout with
  | nil =>
    intro items he
    simp only [expand_layout, Option.some_inj] at he
    subst he; simp
  | cons q rest ih =>
    intro items he p hp
    cases q with
    | mk size quantity =>
      simp only [expand_layout] at he
      by_cases hq : (size_dims_cmm size).1 = 0 ∨ (size_dims_cmm size).2 = 0
      · rw [if_pos hq] at he; simp at he
      · rw [if_neg hq] at he
        cases hrest : expand_layout rest with
        | none => rw [hrest] at he; simp at he
        | some items2 =>
          rw [hrest] at he
          simp only [Option.some_inj] at he
          subst he
          rcases List.mem_append.mp hp with hp1 | hp1
          · have := List.eq_of_mem_replicate hp1
            subst this
            omega
          · exact ih items2 hrest p hp1

theorem expand_layout_length :
    ∀ (layout : List (SizeTag × Nat)) (items : List (Nat × Nat)),
      expand_layout layout = some items → items.length = layout_item_count layout := by
  intro layout
  induction layout with
  | nil =>
    intro items he
    simp only [expand_layout, Option.some_inj] at he
    subst he; simp [layout_item_count]
  | cons q rest ih =>
    intro items he
    cases q with
    | mk size quantity =>
      simp only [expand_layout] at he
      by_cases hq : (size_dims_cmm size).1 = 0 ∨ (size_dims_cmm size).2 = 0
      · rw [if_pos hq] at he; simp at he
      · rw [if_neg hq] at he
        cases hrest : expand_layout rest with
        | none => rw [hrest] at he; simp at he
        | some items2 =>
          rw [hrest] at he
          simp only [Option.some_inj] at he
          subst he
          simp only [List.length_append, List.length_replicate, layout_item_count,
            List.map_cons, List.sum_cons]
          rw [ih items2 hrest]
          rfl

theorem expand_layout_mem :
    ∀ (layout : List (SizeTag × Nat)) (items : List (Nat × Nat)),
      expand_layout layout = some items →
      ∀ p ∈ layout, 0 < p.2 → size_dims_cmm p.1 ∈ items := by
  intro layout
  induction layout with
  | nil => intro items _ p hp; simp at hp
  | cons q rest ih =>
    intro items he p hp hpos
    cases q with
    | mk size quantity =>
      simp only [expand_layout] at he
      by_cases hq : (size_dims_cmm size).1 = 0 ∨ (size_dims_cmm size).2 = 0
      · rw [if_pos hq] at he; simp at he
      · rw [if_neg hq] at he
        cases hrest : expand_layout rest with
        | none => rw [hrest] at he; simp at he
        | some items2 =>
          rw [hrest] at he
          simp only [Option.some_inj] at he
          subst he
          rcases List.mem_cons.mp hp with hp1 | hp1
          · subst hp1
            exact List.mem_append_left _ (List.mem_replicate.mpr ⟨by omega, rfl⟩)
          · exact List.mem_append_right _ (ih items2 hrest p hp1 hpos)

theorem pack_layout_bound (layout : List (SizeTag × Nat)) (A : Nat)
    (hp : pack_layout layout = some A) : A ≤ SHEET_AREA_CMM2 := by
  unfold pack_layout at hp
  cases he : expand_layout layout with
  | none => rw [he] at hp; simp at hp
  | some items =>
    rw [he] at hp
    exact pack_items_bound (sort_by_height_desc items) [] 0 A (by simp [shelf_used_area])
      (by simp) (by simp [shelves_height]) hp

theorem pack_layout_area (layout : List (SizeTag × Nat)) (A : Nat)
    (hp : pack_layout layout = some A) :
    ∃ items, expand_layout layout = some items ∧
      A = (items.map (fun p => p.1 * p.2)).sum := by
  unfold pack_layout at hp
  cases he : expand_layout layout with
  | none => rw [he] at hp; simp at hp
  | some items =>
    rw [he] at hp
    refine ⟨items, rfl, ?_⟩
    have h1 := pack_items_area (sort_by_height_desc items) [] 0 A hp
    have h2 : List.Perm ((sort_by_height_desc items).map (fun p => p.1 * p.2))
        (items.map (fun p => p.1 * p.2)) :=
      (sort_desc_by_perm Prod.snd items).map _
    rw [h1, h2.sum_eq]
    omega

/-- C3: `_calculate_template_utilization` implements exactly the
deterministic no-rotation shelf packing the specification describes:
it agrees with the step-by-step spec rendering (`spec_utilization`) on
every layout, and the sort both use is a stable descending sort on item
height — a permutation of the input, descending in height, preserving
the relative order of items of any equal height. -/
theorem claim_C3 :
    (∀ layout : List (SizeTag × Nat),
        calculate_template_utilization layout = spec_utilization layout) ∧
    (∀ l : List (Nat × Nat), List.Perm (sort_by_height_desc l) l) ∧
    (∀ l : List (Nat × Nat),
        List.Sorted (fun a b => b.2 ≤ a.2) (sort_by_height_desc l)) ∧
    (∀ (l : List (Nat × Nat)) (k : Nat),
        (sort_by_height_desc l).filter (fun x => x.2 = k) =
          l.filter (fun x => x.2 = k)) := by
  refine ⟨?_, ?_, ?_, ?_⟩
  · intro layout
    unfold calculate_template_utilization spec_utilization pack_layout
    rw [expand_layout_eq]
    cases hinv : spec_has_invalid_size layout with
    | true => simp
    | false =>
      simp only [Bool.false_eq_true, if_false]
      have hb := foldl_spec_place_eq
        (sort_by_height_desc (spec_expand_items layout)) [] 0
      rw [← hb]
      cases hfold : (sort_by_height_desc (spec_expand_items layout)).foldl
          spec_place_item (some ([], 0)) with
      | none => simp
      | some st => simp
  · exact fun l => sort_desc_by_perm Prod.snd l
  · exact fun l => sort_desc_by_sorted Prod.snd l
  · exact fun l k => sort_desc_by_stable Prod.snd k l

/-- C2 counterexample: the layout `{'a4': 0}` has no item instance, so
every item is (vacuously) shelf-packable — the packing pipeline succeeds
with used area 0 — yet the calculator returns 0, not a value in (0,1].
The claimed equivalence "value in (0,1] exactly when every item can be
shelf-packed" therefore fails at this input. -/
theorem claim_C2_counterexample :
    ¬ ((0 < calculate_template_utilization [(SizeTag.a4, 0)] ∧
        calculate_template_utilization [(SizeTag.a4, 0)] ≤ 1) ↔
       (pack_layout [(SizeTag.a4, 0)]).isSome = true) := by
  intro h
  have hpack : pack_layout [(SizeTag.a4, 0)] = some 0 := rfl
  have h2 := h.mpr (by rw [hpack]; rfl)
  have hcalc : calculate_template_utilization [(SizeTag.a4, 0)] = 0 := by
    unfold calculate_template_utilization
    rw [hpack]
    norm_num
  rw [hcalc] at h2
  exact absurd h2.1 (by norm_num)

/-- C2 (amended): for every layout the utilization is in [0,1]; it is in
(0,1] exactly when the shelf packing places every item AND the layout
has at least one item instance; and it is 0 when the layout mentions a
size with degenerate dimensions, when some required item exceeds the
sheet width or height, and whenever the packing fails (all-or-nothing;
the source's `>1 → 0` cap is subsumed by the proved bound `≤ 1`). -/
theorem claim_C2_amended (layout : List (SizeTag × Nat)) :
    (0 ≤ calculate_template_utilization layout ∧
      calculate_template_utilization layout ≤ 1) ∧
    (0 < calculate_template_utilization layout ↔
      ((pack_layout layout).isSome = true ∧ 0 < layout_item_count layout)) ∧
    (spec_has_invalid_size layout = true →
      calculate_template_utilization layout = 0) ∧
    ((∃ p ∈ layout, 0 < p.2 ∧
        (SHEET_W_CMM < (size_dims_cmm p.1).1 ∨ SHEET_H_CMM < (size_dims_cmm p.1).2)) →
      calculate_template_utilization layout = 0) ∧
    (pack_layout layout = none → calculate_template_utilization layout = 0) := by
  have hSpos : (0 : ℚ) < (SHEET_AREA_CMM2 : ℚ) := by
    norm_num [SHEET_AREA_CMM2, SHEET_W_CMM, SHEET_H_CMM]
  have hcalc : ∀ A, pack_layout layout = some A →
      calculate_template_utilization layout = (A : ℚ) / (SHEET_AREA_CMM2 : ℚ) := by
    intro A hA
    have hle : (A : ℚ) / (SHEET_AREA_CMM2 : ℚ) ≤ 1 := by
      rw [div_le_one hSpos]
      exact_mod_cast pack_layout_bound layout A hA
    unfold calculate_template_utilization
    rw [hA]
    simp [hle]
  refine ⟨?_, ?_, ?_, ?_, ?_⟩
  · cases hA : pack_layout layout with
    | none =>
      unfold calculate_template_utilization
      rw [hA]
      norm_num
    | some A =>
      rw [hcalc A hA]
      constructor
      · positivity
      · rw [div_le_one hSpos]
        exact_mod_cast pack_layout_bound layout A hA
  · constructor
    · intro hpos
      cases hA : pack_layout layout with
      | none =>
        unfold calculate_template_utilization at hpos
        rw [hA] at hpos
        norm_num at hpos
      | some A =>
        refine ⟨by simp [hA], ?_⟩
        rw [hcalc A hA] at hpos
        have hApos : 0 < A := by
          by_contra hA0
          have : A = 0 := by omega
          rw [this] at hpos
          norm_num at hpos
        rcases pack_layout_area layout A hA with ⟨items, hitems, hsum⟩
        have hlen := expand_layout_length layout items hitems
        rcases items with _ | ⟨x, xs⟩
        · simp at hsum; omega
        · simp at hlen; omega
    · rintro ⟨hsome, hcount⟩
      rcases Option.isSome_iff_exists.mp hsome with ⟨A, hA⟩
      rcases pack_layout_area layout A hA with ⟨items, hitems, hsum⟩
      have hlen := expand_layout_length layout items hitems
      have hpos := expand_layout_pos layout items hitems
      rcases items with _ | ⟨x, xs⟩
      · rw [← hlen] at hcount; simp at hcount
      · have hx := hpos x (List.mem_cons_self _ _)
        have hApos : 0 < A := by
          rw [hsum]
          simp only [List.map_cons, List.sum_cons]
          have : 0 < x.1 * x.2 := Nat.mul_pos hx.1 hx.2
          omega
        rw [hcalc A hA]
        positivity
  · intro hinv
    have hpl : pack_layout layout = none := by
      unfold pack_layout
      rw [expand_layout_eq, hinv]
      rfl
    unfold calculate_template_utilization
    rw [hpl]
  · rintro ⟨p, hp, hppos, hbad⟩
    cases he : expand_layout layout with
    | none =>
      have hpl : pack_layout layout = none := by
        unfold pack_layout
        rw [he]
      unfold calculate_template_utilization
      rw [hpl]
    | some items =>
      have hmem := expand_layout_mem layout items he p hp hppos
      have hsortmem : size_dims_cmm p.1 ∈ sort_by_height_desc items :=
        ((sort_desc_by_perm Prod.snd items).mem_iff).mpr hmem
      have hnone : pack_items (sort_by_height_desc items) [] 0 = none :=
        pack_items_oversize (sort_by_height_desc items) [] 0
          (by simp [shelves_height]) ⟨size_dims_cmm p.1, hsortmem, hbad⟩
      have hpl : pack_layout layout = none := by
        unfold pack_layout
        rw [he]
        exact hnone
      unfold calculate_template_utilization
      rw [hpl]
  · intro hnone
    unfold calculate_template_utilization
    rw [hnone]

/-! ## Fit count, cost-effectiveness and priority -/

theorem floor_mm_div (W c : Nat) (hc : c ≠ 0) :
    ⌊(W : ℚ) / ((c : ℚ) / 100)⌋₊ = W * 100 / c := by
  have hcq : (c : ℚ) ≠ 0 := Nat.cast_ne_zero.mpr hc
  have h1 : (W : ℚ) / ((c : ℚ) / 100) = ((W * 100 : ℕ) : ℚ) / ((c : ℕ) : ℚ) := by
    push_cast
    field_simp
  rw [h1, Nat.floor_div_nat, Nat.floor_natCast]

theorem le_ceil_mul (a c : ℕ) (hc : 0 < c) : a ≤ ((a + c - 1) / c) * c := by
  obtain ⟨s, hs⟩ : ∃ s, (a + c - 1) / c = s := ⟨_, rfl⟩
  rw [hs]
  have hmod := Nat.div_add_mod (a + c - 1) c
  rw [hs, Nat.mul_comm c s] at hmod
  have hr : (a + c - 1) % c < c := Nat.mod_lt _ hc
  generalize hgen : s * c = t at hmod ⊢
  generalize hgen2 : (a + c - 1) % c = r at hmod hr
  omega

theorem ceil_div_nat (a c : ℕ) (hc : 0 < c) :
    ⌈(a : ℚ) / (c : ℚ)⌉₊ = (a + c - 1) / c := by
  rcases Nat.eq_zero_or_pos a with ha | ha
  · subst ha
    rw [show ((0 : ℕ) : ℚ) / (c : ℚ) = 0 by simp]
    rw [Nat.ceil_zero]
    rw [Nat.div_eq_of_lt (by omega)]
  · have hcq : (0 : ℚ) < (c : ℚ) := by exact_mod_cast hc
    apply le_antisymm
    · rw [Nat.ceil_le, div_le_iff hcq]
      exact_mod_cast le_ceil_mul a c hc
    · by_cases hs0 : (a + c - 1) / c = 0
      · rw [hs0]; exact Nat.zero_le _
      · obtain ⟨s, hs⟩ : ∃ s, (a + c - 1) / c = s := ⟨_, rfl⟩
        rw [hs]
        have hup : s * c ≤ a + c - 1 := by
          rw [← hs]; exact Nat.div_mul_le_self _ _
        have hspos : 0 < s := by omega
        have h3 : (s - 1) * c < a := by
          have hmod := Nat.div_add_mod (a + c - 1) c
          rw [hs, Nat.mul_comm c s] at hmod
          have hr : (a + c - 1) % c < c := Nat.mod_lt _ hc
          have h4 : (s - 1) * c + c = s * c := by
            rcases Nat.exists_eq_add_of_le hspos with ⟨k, hk⟩
            have hsk : s = 1 + k := hk
            subst hsk
            have hk1 : 1 + k - 1 = k := by omega
            rw [hk1]
            ring
          generalize hgen : (s - 1) * c = t at h4 ⊢
          generalize hgen2 : s * c = u at h4 hup hmod
          generalize hgen3 : (a + c - 1) % c = r at hmod hr
          omega
        have h5 : s - 1 < ⌈(a : ℚ) / (c : ℚ)⌉₊ := by
          rw [Nat.lt_ceil, lt_div_iff hcq]
          exact_mod_cast h3
        omega

/-- C4: for every non-native size the single-size sheet capacity is the
no-rotation, no-gutter grid count `floor(W/w) * floor(H/h)` (0 when a
dimension is degenerate or exceeds the sheet); a 154.5 × 109.75 mm item
(the a6 size) on the 310 × 440 mm sheet yields 2 × 4 = 8; the native a3
size always yields 0. -/
theorem claim_C4 :
    (∀ size : SizeTag, size ≠ SizeTag.a3 →
      get_fits_on_a3 size =
        (if (get_size_dims_mm size).1 ≤ 0 ∨ (get_size_dims_mm size).2 ≤ 0 ∨
            SHEET_W_MM < (get_size_dims_mm size).1 ∨
            SHEET_H_MM < (get_size_dims_mm size).2
         then 0
         else ⌊SHEET_W_MM / (get_size_dims_mm size).1⌋₊ *
              ⌊SHEET_H_MM / (get_size_dims_mm size).2⌋₊)) ∧
    get_size_dims_mm SizeTag.a6 = (154.5, 109.75) ∧
    SHEET_W_MM = 310 ∧ SHEET_H_MM = 440 ∧
    get_fits_on_a3 SizeTag.a6 = 8 ∧
    get_fits_on_a3 SizeTag.a3 = 0 := by
  refine ⟨?_, by norm_num [get_size_dims_mm, size_dims_cmm], rfl, rfl, by decide, rfl⟩
  intro size hs
  obtain ⟨c1, c2, hc⟩ : ∃ c1 c2, size_dims_cmm size = (c1, c2) :=
    ⟨(size_dims_cmm size).1, (size_dims_cmm size).2, rfl⟩
  have hdm1 : (get_size_dims_mm size).1 = (c1 : ℚ) / 100 := by
    unfold get_size_dims_mm; rw [hc]
  have hdm2 : (get_size_dims_mm size).2 = (c2 : ℚ) / 100 := by
    unfold get_size_dims_mm; rw [hc]
  unfold get_fits_on_a3
  rw [if_neg hs, hdm1, hdm2, hc]
  by_cases h0 : c1 = 0 ∨ c2 = 0
  · rw [if_pos h0, if_pos]
    rcases h0 with h0 | h0 <;> rw [h0] <;> norm_num
  · push_neg at h0
    have h01 : (0 : ℚ) < (c1 : ℚ) / 100 := by
      have : 0 < c1 := Nat.pos_of_ne_zero h0.1
      positivity
    have h02 : (0 : ℚ) < (c2 : ℚ) / 100 := by
      have : 0 < c2 := Nat.pos_of_ne_zero h0.2
      positivity
    rw [if_neg (by omega)]
    by_cases hov : SHEET_W_CMM < c1 ∨ SHEET_H_CMM < c2
    · rw [if_pos hov, if_pos]
      rcases hov with hov | hov
      · refine Or.inr (Or.inr (Or.inl ?_))
        unfold SHEET_W_MM
        rw [lt_div_iff (by norm_num : (0:ℚ) < 100)]
        have : (31000 : ℚ) < (c1 : ℚ) := by
          exact_mod_cast (by unfold SHEET_W_CMM at hov; omega : 31000 < c1)
        linarith
      · refine Or.inr (Or.inr (Or.inr ?_))
        unfold SHEET_H_MM
        rw [lt_div_iff (by norm_num : (0:ℚ) < 100)]
        have : (44000 : ℚ) < (c2 : ℚ) := by
          exact_mod_cast (by unfold SHEET_H_CMM at hov; omega : 44000 < c2)
        linarith
    · push_neg at hov
      rw [if_neg (by push_neg; exact hov), if_neg]
      · have hw : ⌊SHEET_W_MM / ((c1 : ℚ) / 100)⌋₊ = 31000 / c1 := by
          rw [show SHEET_W_MM = ((310 : ℕ) : ℚ) by norm_num [SHEET_W_MM]]
          rw [floor_mm_div 310 c1 h0.1]
        have hh : ⌊SHEET_H_MM / ((c2 : ℚ) / 100)⌋₊ = 44000 / c2 := by
          rw [show SHEET_H_MM = ((440 : ℕ) : ℚ) by norm_num [SHEET_H_MM]]
          rw [floor_mm_div 440 c2 h0.2]
        rw [hw, hh]
        rfl
      · push_neg
        refine ⟨by linarith, by linarith, ?_, ?_⟩
        · unfold SHEET_W_MM
          rw [div_le_iff (by norm_num : (0:ℚ) < 100)]
          have : (c1 : ℚ) ≤ 31000 := by
            exact_mod_cast (by unfold SHEET_W_CMM at hov; omega : c1 ≤ 31000)
          linarith
        · unfold SHEET_H_MM
          rw [div_le_iff (by norm_num : (0:ℚ) < 100)]
          have : (c2 : ℚ) ≤ 44000 := by
            exact_mod_cast (by unfold SHEET_H_CMM at hov; omega : c2 ≤ 44000)
          linarith

/-- C7: a job with quantity ≥ 1 is individually cost-effective to gang
exactly when its size has positive sheet capacity and
`sheetsNeeded * perSheetCost * ((sheetsNeeded*capacity - qty) /
(sheetsNeeded*capacity)) < screenSetupCost` with
`sheetsNeeded = ceil(qty / capacity)`; a size of capacity 0 (the native
a3 size in particular) is never cost-effective; and the fallback cost
defaults are 50.0 (screen setup) and 2.0 (per sheet). -/
theorem claim_C7 :
    (∀ (t : Task) (size : SizeTag) (qty : Nat), 1 ≤ qty →
      (is_cost_effective_to_gang t size qty = true ↔
        0 < get_fits_on_a3 size ∧
          (⌈(qty : ℚ) / (get_fits_on_a3 size : ℚ)⌉₊ : ℚ) * t.sheetCost *
            (((⌈(qty : ℚ) / (get_fits_on_a3 size : ℚ)⌉₊ : ℚ) *
                (get_fits_on_a3 size : ℚ) - (qty : ℚ)) /
              ((⌈(qty : ℚ) / (get_fits_on_a3 size : ℚ)⌉₊ : ℚ) *
                (get_fits_on_a3 size : ℚ))) < t.screenCost)) ∧
    (∀ (t : Task) (qty : Nat), is_cost_effective_to_gang t SizeTag.a3 qty = false) ∧
    default_gang_screen_cost = 50 ∧ default_gang_a3_sheet_cost = 2 := by
  refine ⟨?_, ?_, rfl, rfl⟩
  · intro t size qty hq
    unfold is_cost_effective_to_gang
    rw [if_neg (by omega : ¬ qty = 0)]
    by_cases hc : get_fits_on_a3 size = 0
    · simp only [hc, if_true]
      constructor
      · intro h; exact absurd h (by simp)
      · rintro ⟨hpos, _⟩; omega
    · rw [if_neg hc]
      have hcpos : 0 < get_fits_on_a3 size := Nat.pos_of_ne_zero hc
      obtain ⟨c, hceq⟩ : ∃ c, get_fits_on_a3 size = c := ⟨_, rfl⟩
      rw [hceq] at hcpos ⊢
      have hceil : ⌈(qty : ℚ) / (c : ℚ)⌉₊ = (qty + c - 1) / c := ceil_div_nat qty c hcpos
      obtain ⟨s, hseq⟩ : ∃ s, (qty + c - 1) / c = s := ⟨_, rfl⟩
      rw [hseq] at hceil
      rw [hceil]
      have hle : qty ≤ s * c := by rw [← hseq]; exact le_ceil_mul qty c hcpos
      have hspos : 0 < s := by
        rcases Nat.eq_zero_or_pos s with h0 | h0
        · subst h0; simp at hle; omega
        · exact h0
      have htpos : 0 < s * c := by
        have := Nat.mul_le_mul hspos hcpos
        omega
      have hcast1 : ((s * c - qty : ℕ) : ℚ) = (s : ℚ) * (c : ℚ) - (qty : ℚ) := by
        push_cast [Nat.cast_sub hle]
        ring
      have hcast2 : ((s * c : ℕ) : ℚ) = (s : ℚ) * (c : ℚ) := by push_cast; ring
      simp only [hseq, htpos, if_true, decide_eq_true_eq]
      rw [hcast1, hcast2]
      constructor
      · intro h; exact ⟨hcpos, h⟩
      · rintro ⟨_, h⟩; exact h
  · intro t qty
    unfold is_cost_effective_to_gang
    by_cases hq : qty = 0
    · rw [if_pos hq]
    · rw [if_neg hq]
      rw [if_pos (by rfl : get_fits_on_a3 SizeTag.a3 = 0)]

/-- C8: `get_gang_priority` is exactly the deadline bucket (100 for
≤ 1 day including past deadlines, 50 for ≤ 3, 25 for ≤ 7, else 0, and 0
with no deadline) plus a flat 10 exactly when the job is individually
cost-effective at its own size and quantity; in particular a job with a
past deadline that is not cost-effective scores exactly 100. -/
theorem claim_C8 :
    (∀ t : Task,
      get_gang_priority t =
        (match t.deadlineDays with
         | none => 0
         | some d => if d ≤ 1 then 100 else if d ≤ 3 then 50
                     else if d ≤ 7 then 25 else 0) +
        (if is_cost_effective_to_gang t t.size t.parsedQty then 10 else 0)) ∧
    (∀ (t : Task) (d : Int), t.deadlineDays = some d → d < 0 →
      is_cost_effective_to_gang t t.size t.parsedQty = false →
      get_gang_priority t = 100) := by
  constructor
  · intro t; rfl
  · intro t d hd hneg hce
    unfold get_gang_priority
    rw [hd, hce]
    simp [show d ≤ 1 by omega]

/-- C6: the gang/skip decision commits a combination exactly when it is
non-empty and either some task in it reaches the urgency threshold
`gangPriority ≥ 100` or at least half of its tasks are individually
cost-effective (`count ≥ len/2`, i.e. `len ≤ 2*count`); the empty
combination is never committed. -/
theorem claim_C6 (combination : List (Task × Nat)) :
    should_gang_combination combination = true ↔
      combination ≠ [] ∧
        ((∃ e ∈ combination, 100 ≤ get_gang_priority e.1) ∨
          combination.length ≤
            2 * ((combination.map Prod.fst).filter
              (fun t => is_cost_effective_to_gang t t.size t.parsedQty)).length) := by
  unfold should_gang_combination
  rcases combination with _ | ⟨x, rest⟩
  · simp
  · rw [if_neg (by simp)]
    by_cases hany : ((x :: rest).map Prod.fst).any (fun t => 100 ≤ get_gang_priority t)
    · rw [if_pos hany]
      simp only [List.any_eq_true, List.mem_map] at hany
      rcases hany with ⟨t, ⟨e, he, het⟩, ht⟩
      constructor
      · intro _
        refine ⟨by simp, Or.inl ⟨e, he, ?_⟩⟩
        rw [het]
        simpa using ht
      · intro _; rfl
    · rw [if_neg hany, if_neg (by simp)]
      rw [decide_eq_true_eq]
      have hlen : ((x :: rest).map Prod.fst).length = (x :: rest).length := by simp
      constructor
      · intro h
        refine ⟨by simp, Or.inr ?_⟩
        rw [div_le_iff₀ (by norm_num : (0:ℚ) < 2)] at h
        rw [← hlen]
        rw [mul_comm] at h
        exact_mod_cast h
      · rintro ⟨_, h | h⟩
        · exfalso
          rcases h with ⟨e, he, hp⟩
          apply hany
          simp only [List.any_eq_true, List.mem_map]
          exact ⟨e.1, ⟨e, he, rfl⟩, by simpa using hp⟩
        · rw [div_le_iff₀ (by norm_num : (0:ℚ) < 2)]
          rw [← hlen] at h
          rw [mul_comm]
          exact_mod_cast h

/-! ## Per-id accounting of combinations, buckets and inventories -/

theorem comb_total_nil (tid : Nat) : comb_total [] tid = 0 := rfl

theorem comb_total_cons (e : Task × Nat) (l : List (Task × Nat)) (tid : Nat) :
    comb_total (e :: l) tid =
      (if e.1.id = tid then e.2 else 0) + comb_total l tid := by
  unfold comb_total
  by_cases he : e.1.id = tid <;> simp [List.filter_cons, he]

theorem comb_total_append (l1 l2 : List (Task × Nat)) (tid : Nat) :
    comb_total (l1 ++ l2) tid = comb_total l1 tid + comb_total l2 tid := by
  unfold comb_total
  rw [List.filter_append, List.map_append, List.sum_append]

theorem comb_total_perm {l1 l2 : List (Task × Nat)} (h : List.Perm l1 l2)
    (tid : Nat) : comb_total l1 tid = comb_total l2 tid := by
  unfold comb_total
  exact ((h.filter _).map _).sum_eq

theorem comb_total_eq_zero (l : List (Task × Nat)) (tid : Nat)
    (h : ∀ e ∈ l, e.1.id ≠ tid) : comb_total l tid = 0 := by
  induction l with
  | nil => rfl
  | cons e rest ih =>
    rw [comb_total_cons, if_neg (h e (List.mem_cons_self _ _)),
      ih (fun a ha => h a (List.mem_cons_of_mem _ ha))]

theorem comb_total_filter_le (p : Task × Nat → Bool) (l : List (Task × Nat))
    (tid : Nat) : comb_total (l.filter p) tid ≤ comb_total l tid := by
  induction l with
  | nil => simp [comb_total_nil]
  | cons e rest ih =>
    rw [comb_total_cons]
    rcases hp : p e with _ | _
    · rw [List.filter_cons_of_neg (by simp [hp])]
      omega
    · rw [List.filter_cons_of_pos (by simp [hp]), comb_total_cons]
      omega

theorem draw_from_bucket_bound (tid : Nat) :
    ∀ (l : List (Task × Nat)) (needed : Nat),
      comb_total (draw_from_bucket l needed).1 tid ≤ comb_total l tid := by
  intro l
  induction l with
  | nil =>
    intro needed
    rcases needed with _ | n <;> simp [draw_from_bucket, comb_total_nil]
  | cons e rest ih =>
    intro needed
    rcases needed with _ | n
    · simp [draw_from_bucket, comb_total_nil]
    · cases e with
      | mk t avail =>
        by_cases htake : 0 < min avail (n + 1)
        · rw [show draw_from_bucket ((t, avail) :: rest) (n + 1) =
              ((t, min avail (n + 1)) ::
                (draw_from_bucket rest (n + 1 - min avail (n + 1))).1,
               get_gang_priority t * min avail (n + 1) +
                (draw_from_bucket rest (n + 1 - min avail (n + 1))).2.1,
               min avail (n + 1) +
                (draw_from_bucket rest (n + 1 - min avail (n + 1))).2.2) by
            simp [draw_from_bucket, htake]]
          rw [comb_total_cons, comb_total_cons]
          have h1 := ih (n + 1 - min avail (n + 1))
          have h2 : min avail (n + 1) ≤ avail := Nat.min_le_left _ _
          by_cases ht : t.id = tid <;> simp only [ht, if_true, if_false] <;> omega
        · rw [show draw_from_bucket ((t, avail) :: rest) (n + 1) =
              draw_from_bucket rest (n + 1) by simp [draw_from_bucket, htake]]
          rw [comb_total_cons]
          have h1 := ih (n + 1)
          omega

theorem draw_from_bucket_mem :
    ∀ (l : List (Task × Nat)) (needed : Nat) (e : Task × Nat),
      e ∈ (draw_from_bucket l needed).1 → ∃ a, (e.1, a) ∈ l ∧ 0 < e.2 ∧ e.2 ≤ a := by
  intro l
  induction l with
  | nil =>
    intro needed e he
    rcases needed with _ | n <;> simp [draw_from_bucket] at he
  | cons p rest ih =>
    intro needed e he
    rcases needed with _ | n
    · simp [draw_from_bucket] at he
    · cases p with
      | mk t avail =>
        by_cases htake : 0 < min avail (n + 1)
        · rw [show draw_from_bucket ((t, avail) :: rest) (n + 1) =
              ((t, min avail (n + 1)) ::
                (draw_from_bucket rest (n + 1 - min avail (n + 1))).1,
               get_gang_priority t * min avail (n + 1) +
                (draw_from_bucket rest (n + 1 - min avail (n + 1))).2.1,
               min avail (n + 1) +
                (draw_from_bucket rest (n + 1 - min avail (n + 1))).2.2) by
            simp [draw_from_bucket, htake]] at he
          rcases List.mem_cons.mp he with he1 | he1
          · subst he1
            exact ⟨avail, List.mem_cons_self _ _, htake, Nat.min_le_left _ _⟩
          · rcases ih _ e he1 with ⟨a, ha, hpos, hle⟩
            exact ⟨a, List.mem_cons_of_mem _ ha, hpos, hle⟩
        · rw [show draw_from_bucket ((t, avail) :: rest) (n + 1) =
              draw_from_bucket rest (n + 1) by simp [draw_from_bucket, htake]] at he
          rcases ih _ e he with ⟨a, ha, hpos, hle⟩
          exact ⟨a, List.mem_cons_of_mem _ ha, hpos, hle⟩

theorem add_avail_flat_perm (inv : List (SizeTag × List (Task × Nat)))
    (size : SizeTag) (entry : Task × Nat) :
    List.Perm (inv_flat (add_avail inv size entry)) (inv_flat inv ++ [entry]) := by
  induction inv with
  | nil => simp [add_avail, inv_flat]
  | cons p rest ih =>
    cases p with
    | mk s l =>
      by_cases hs : s = size
      · subst hs
        rw [show add_avail ((s, l) :: rest) s entry = (s, l ++ [entry]) :: rest by
          simp [add_avail]]
        simp only [inv_flat, List.flatMap_cons]
        rw [List.append_assoc]
        refine (((List.perm_append_singleton entry
          (rest.flatMap Prod.snd)).symm).append_left l).trans ?_
        rw [← List.append_assoc]
      · rw [show add_avail ((s, l) :: rest) size entry =
            (s, l) :: add_avail rest size entry by simp [add_avail, hs]]
        simp only [inv_flat, List.flatMap_cons] at *
        refine (ih.append_left l).trans ?_
        rw [← List.append_assoc]

theorem add_avail_keys (inv : List (SizeTag × List (Task × Nat)))
    (size : SizeTag) (entry : Task × Nat) :
    (add_avail inv size entry).map Prod.fst =
      if size ∈ inv.map Prod.fst then inv.map Prod.fst
      else inv.map Prod.fst ++ [size] := by
  induction inv with
  | nil => simp [add_avail]
  | cons p rest ih =>
    cases p with
    | mk s l =>
      by_cases hs : s = size
      · subst hs
        rw [show add_avail ((s, l) :: rest) s entry = (s, l ++ [entry]) :: rest by
          simp [add_avail]]
        simp
      · rw [show add_avail ((s, l) :: rest) size entry =
            (s, l) :: add_avail rest size entry by simp [add_avail, hs]]
        rw [List.map_cons, List.map_cons, ih]
        have hne : ¬ size = s := fun h => hs h.symm
        by_cases hmem : size ∈ rest.map Prod.fst
        · rw [if_pos hmem, if_pos (List.mem_cons_of_mem _ hmem)]
        · rw [if_neg hmem, if_neg (by
            intro h
            rcases List.mem_cons.mp h with h1 | h1
            · exact hne h1
            · exact hmem h1)]
          rw [List.cons_append]

theorem add_avail_keys_nodup (inv : List (SizeTag × List (Task × Nat)))
    (size : SizeTag) (entry : Task × Nat)
    (h : (inv.map Prod.fst).Nodup) :
    ((add_avail inv size entry).map Prod.fst).Nodup := by
  rw [add_avail_keys]
  by_cases hmem : size ∈ inv.map Prod.fst
  · rw [if_pos hmem]; exact h
  · rw [if_neg hmem]
    rw [List.nodup_append]
    exact ⟨h, List.nodup_singleton _, by simpa using hmem⟩

theorem add_avail_bucket_prop (P : SizeTag → Task × Nat → Prop)
    (inv : List (SizeTag × List (Task × Nat))) (size : SizeTag)
    (entry : Task × Nat)
    (hinv : ∀ p ∈ inv, ∀ e ∈ p.2, P p.1 e) (hentry : P size entry) :
    ∀ p ∈ add_avail inv size entry, ∀ e ∈ p.2, P p.1 e := by
  induction inv with
  | nil =>
    intro p hp e he
    simp only [add_avail, List.mem_singleton] at hp
    subst hp
    simp only [List.mem_singleton] at he
    subst he
    exact hentry
  | cons q rest ih =>
    intro p hp e he
    cases q with
    | mk s l =>
      by_cases hs : s = size
      · subst hs
        simp only [add_avail, if_true] at hp
        rcases List.mem_cons.mp hp with hp1 | hp1
        · subst hp1
          rcases List.mem_append.mp he with he1 | he1
          · exact hinv (s, l) (List.mem_cons_self _ _) e he1
          · rcases List.mem_singleton.mp he1 with rfl
            exact hentry
        · exact hinv p (List.mem_cons_of_mem _ hp1) e he
      · simp only [add_avail, hs, if_false] at hp
        rcases List.mem_cons.mp hp with hp1 | hp1
        · subst hp1
          exact hinv (s, l) (List.mem_cons_self _ _) e he
        · exact ih (fun q hq => hinv q (List.mem_cons_of_mem _ hq)) p hp1 e he

theorem build_available_tasks_flat (tasks : List Task) (alloc : Nat → Nat) :
    List.Perm (inv_flat (build_available_tasks tasks alloc))
      ((tasks.filter (fun t =>
          decide (t.size ≠ SizeTag.a3 ∧ 0 < available_quantity alloc t))).map
        (fun t => (t, available_quantity alloc t))) := by
  have haux : ∀ (l : List Task) (inv : List (SizeTag × List (Task × Nat))),
      List.Perm
        (inv_flat (l.foldl (fun inv t =>
          if t.size ≠ SizeTag.a3 ∧ 0 < available_quantity alloc t then
            add_avail inv t.size (t, available_quantity alloc t)
          else inv) inv))
        (inv_flat inv ++
          (l.filter (fun t =>
            decide (t.size ≠ SizeTag.a3 ∧ 0 < available_quantity alloc t))).map
            (fun t => (t, available_quantity alloc t))) := by
    intro l
    induction l with
    | nil => intro inv; simp
    | cons t rest ih =>
      intro inv
      by_cases hc : t.size ≠ SizeTag.a3 ∧ 0 < available_quantity alloc t
      · rw [List.foldl_cons, if_pos hc,
          List.filter_cons_of_pos (by simpa using hc)]
        have h1 := ih (add_avail inv t.size (t, available_quantity alloc t))
        have h2 := (add_avail_flat_perm inv t.size
          (t, available_quantity alloc t)).append_right
          ((rest.filter (fun t =>
            decide (t.size ≠ SizeTag.a3 ∧ 0 < available_quantity alloc t))).map
            (fun t => (t, available_quantity alloc t)))
        refine h1.trans (h2.trans ?_)
        rw [List.map_cons]
        rw [List.append_assoc]
        exact (List.perm_middle).symm.append_left (inv_flat inv) |>.symm.symm
      · rw [List.foldl_cons, if_neg hc,
          List.filter_cons_of_neg (by simpa using hc)]
        exact ih inv
  simpa [build_available_tasks, inv_flat] using haux tasks []

theorem build_available_tasks_keys_nodup (tasks : List Task) (alloc : Nat → Nat) :
    ((build_available_tasks tasks alloc).map Prod.fst).Nodup := by
  have haux : ∀ (l : List Task) (inv : List (SizeTag × List (Task × Nat))),
      (inv.map Prod.fst).Nodup →
      ((l.foldl (fun inv t =>
        if t.size ≠ SizeTag.a3 ∧ 0 < available_quantity alloc t then
          add_avail inv t.size (t, available_quantity alloc t)
        else inv) inv).map Prod.fst).Nodup := by
    intro l
    induction l with
    | nil => intro inv h; exact h
    | cons t rest ih =>
      intro inv h
      by_cases hc : t.size ≠ SizeTag.a3 ∧ 0 < available_quantity alloc t
      · rw [List.foldl_cons, if_pos hc]
        exact ih _ (add_avail_keys_nodup inv t.size _ h)
      · rw [List.foldl_cons, if_neg hc]
        exact ih inv h
  exact haux tasks [] (by simp)

theorem build_available_tasks_buckets (tasks : List Task) (alloc : Nat → Nat) :
    ∀ p ∈ build_available_tasks tasks alloc, ∀ e ∈ p.2,
      e.1.size = p.1 ∧ e.1 ∈ tasks ∧ e.1.size ≠ SizeTag.a3 ∧
        e.2 = available_quantity alloc e.1 ∧ 0 < e.2 := by
  have haux : ∀ (l : List Task) (sub : List Task)
      (inv : List (SizeTag × List (Task × Nat))),
      (∀ t ∈ l, t ∈ sub) →
      (∀ p ∈ inv, ∀ e ∈ p.2,
        e.1.size = p.1 ∧ e.1 ∈ sub ∧ e.1.size ≠ SizeTag.a3 ∧
          e.2 = available_quantity alloc e.1 ∧ 0 < e.2) →
      ∀ p ∈ (l.foldl (fun inv t =>
          if t.size ≠ SizeTag.a3 ∧ 0 < available_quantity alloc t then
            add_avail inv t.size (t, available_quantity alloc t)
          else inv) inv), ∀ e ∈ p.2,
        e.1.size = p.1 ∧ e.1 ∈ sub ∧ e.1.size ≠ SizeTag.a3 ∧
          e.2 = available_quantity alloc e.1 ∧ 0 < e.2 := by
    intro l
    induction l with
    | nil => intro sub inv _ hinv; exact hinv
    | cons t rest ih =>
      intro sub inv hl hinv
      by_cases hc : t.size ≠ SizeTag.a3 ∧ 0 < available_quantity alloc t
      · rw [List.foldl_cons, if_pos hc]
        refine ih sub _ (fun u hu => hl u (List.mem_cons_of_mem _ hu)) ?_
        exact add_avail_bucket_prop
          (fun s e => e.1.size = s ∧ e.1 ∈ sub ∧ e.1.size ≠ SizeTag.a3 ∧
            e.2 = available_quantity alloc e.1 ∧ 0 < e.2)
          inv t.size _ hinv
          ⟨rfl, hl t (List.mem_cons_self _ _), hc.1, rfl, hc.2⟩
      · rw [List.foldl_cons, if_neg hc]
        exact ih sub inv (fun u hu => hl u (List.mem_cons_of_mem _ hu)) hinv
  exact haux tasks tasks [] (fun t ht => ht) (by simp)

theorem find_bucket_mem (inv : List (SizeTag × List (Task × Nat)))
    (size : SizeTag) (b : List (Task × Nat)) (h : find_bucket inv size = some b) :
    (size, b) ∈ inv := by
  induction inv with
  | nil => simp [find_bucket] at h
  | cons p rest ih =>
    cases p with
    | mk s l =>
      by_cases hs : s = size
      · subst hs
        rw [show find_bucket ((s, l) :: rest) s = some l by
          simp [find_bucket]] at h
        simp only [Option.some_inj] at h
        subst h
        exact List.mem_cons_self _ _
      · rw [show find_bucket ((s, l) :: rest) size = find_bucket rest size by
          simp [find_bucket, hs]] at h
        exact List.mem_cons_of_mem _ (ih h)

theorem mem_flat_of_mem_bucket (inv : List (SizeTag × List (Task × Nat)))
    (p : SizeTag × List (Task × Nat)) (hp : p ∈ inv) (e : Task × Nat)
    (he : e ∈ p.2) : e ∈ inv_flat inv := by
  unfold inv_flat
  exact List.mem_flatMap.mpr ⟨p, hp, he⟩

theorem comb_total_bucket_le_flat (inv : List (SizeTag × List (Task × Nat)))
    (p : SizeTag × List (Task × Nat)) (hp : p ∈ inv) (tid : Nat) :
    comb_total p.2 tid ≤ comb_total (inv_flat inv) tid := by
  induction inv with
  | nil => simp at hp
  | cons q rest ih =>
    rw [show inv_flat (q :: rest) = q.2 ++ inv_flat rest by
      simp [inv_flat]]
    rw [comb_total_append]
    rcases List.mem_cons.mp hp with hp1 | hp1
    · subst hp1; omega
    · have := ih hp1; omega

theorem try_template_layout_bound (inv : List (SizeTag × List (Task × Nat))) :
    ∀ (layout : List (SizeTag × Nat)) (comb : List (Task × Nat)) (tp ti : Nat),
      try_template_layout inv layout = some (comb, tp, ti) →
      ∀ tid, comb_total comb tid ≤ layout_avail inv layout tid := by
  intro layout
  induction layout with
  | nil =>
    intro comb tp ti h tid
    simp only [try_template_layout, Option.some_inj] at h
    rw [show comb = [] from congrArg (fun x => x.1) h.symm]
    simp [comb_total_nil, layout_avail]
  | cons q rest ih =>
    intro comb tp ti h tid
    cases q with
    | mk size need =>
      simp only [try_template_layout] at h
      split at h
      · simp at h
      · rename_i bucket hb
        split at h
        · simp at h
        · split at h
          · simp at h
          · rename_i hsum r comb2 tp2 ti2 hrest
            simp only [Option.some_inj] at h
            have hcomb : comb =
                (draw_from_bucket (sort_desc_by (fun e => get_gang_priority e.1)
                  bucket) need).1 ++ comb2 :=
              congrArg (fun x => x.1) h.symm
            rw [hcomb, comb_total_append]
            have h1 := draw_from_bucket_bound tid
              (sort_desc_by (fun e => get_gang_priority e.1) bucket) need
            have h2 : comb_total (sort_desc_by (fun e => get_gang_priority e.1)
                bucket) tid = comb_total bucket tid :=
              comb_total_perm (sort_desc_by_perm _ bucket) tid
            have h3 := ih comb2 tp2 ti2 hrest tid
            have h4 : bucket_of inv size = bucket := by
              unfold bucket_of
              rw [hb]
              rfl
            unfold layout_avail at *
            simp only [List.map_cons, List.sum_cons]
            rw [h4]
            omega

theorem find_bucket_filter_ne (inv : List (SizeTag × List (Task × Nat)))
    (s s2 : SizeTag) (hne : s2 ≠ s) :
    find_bucket (inv.filter (fun p => ¬ p.1 = s)) s2 = find_bucket inv s2 := by
  induction inv with
  | nil => simp [find_bucket]
  | cons p rest ih =>
    cases p with
    | mk k b =>
      by_cases hk : k = s
      · subst hk
        rw [List.filter_cons_of_neg (by simp)]
        rw [ih]
        rw [show find_bucket ((k, b) :: rest) s2 = find_bucket rest s2 by
          simp only [find_bucket]
          rw [if_neg (fun h => hne h.symm)]]
      · rw [List.filter_cons_of_pos (by simpa using hk)]
        by_cases hk2 : k = s2
        · subst hk2
          simp [find_bucket]
        · rw [show find_bucket ((k, b) :: rest) s2 = find_bucket rest s2 by
            simp [find_bucket, hk2]]
          rw [show find_bucket ((k, b) :: (rest.filter (fun p => ¬ p.1 = s))) s2 =
              find_bucket (rest.filter (fun p => ¬ p.1 = s)) s2 by
            simp [find_bucket, hk2]]
          exact ih

theorem inv_flat_split (inv : List (SizeTag × List (Task × Nat))) (s : SizeTag)
    (hkeys : (inv.map Prod.fst).Nodup) :
    List.Perm (inv_flat inv)
      (bucket_of inv s ++ inv_flat (inv.filter (fun p => ¬ p.1 = s))) := by
  induction inv with
  | nil => simp [inv_flat, bucket_of, find_bucket]
  | cons p rest ih =>
    cases p with
    | mk k b =>
      rw [List.map_cons, List.nodup_cons] at hkeys
      by_cases hk : k = s
      · subst hk
        have hb : bucket_of ((k, b) :: rest) k = b := by
          unfold bucket_of
          simp [find_bucket]
        rw [hb, List.filter_cons_of_neg (by simp)]
        have hrest : rest.filter (fun p => ¬ p.1 = k) = rest := by
          apply List.filter_eq_self.mpr
          intro p hp
          simp only [decide_eq_true_eq]
          intro hpk
          apply hkeys.1
          rw [← hpk]
          exact List.mem_map.mpr ⟨p, hp, rfl⟩
        rw [hrest]
        simp [inv_flat]
      · have hb : bucket_of ((k, b) :: rest) s = bucket_of rest s := by
          unfold bucket_of
          simp [find_bucket, hk]
        rw [hb, List.filter_cons_of_pos (by simpa using hk)]
        rw [show inv_flat ((k, b) :: rest) = b ++ inv_flat rest by simp [inv_flat]]
        rw [show inv_flat ((k, b) :: rest.filter (fun p => ¬ p.1 = s)) =
            b ++ inv_flat (rest.filter (fun p => ¬ p.1 = s)) by simp [inv_flat]]
        refine ((ih hkeys.2).append_left b).trans ?_
        rw [← List.append_assoc, ← List.append_assoc]
        exact (List.perm_append_comm).append_right _

theorem layout_avail_le_flat :
    ∀ (layout : List (SizeTag × Nat)) (inv : List (SizeTag × List (Task × Nat))),
      (inv.map Prod.fst).Nodup → (layout.map Prod.fst).Nodup →
      ∀ tid, layout_avail inv layout tid ≤ comb_total (inv_flat inv) tid := by
  intro layout
  induction layout with
  | nil =>
    intro inv _ _ tid
    simp [layout_avail]
  | cons q rest ih =>
    intro inv hkeys hsizes tid
    cases q with
    | mk s n =>
      rw [List.map_cons, List.nodup_cons] at hsizes
      have hstep1 : layout_avail inv rest tid =
          layout_avail (inv.filter (fun p => ¬ p.1 = s)) rest tid := by
        unfold layout_avail
        congr 1
        apply List.map_congr_left
        intro p hp
        have hne : p.1 ≠ s := by
          intro h
          apply hsizes.1
          rw [← h]
          exact List.mem_map.mpr ⟨p, hp, rfl⟩
        unfold bucket_of
        rw [find_bucket_filter_ne inv s p.1 hne]
      have hkeys2 : ((inv.filter (fun p => ¬ p.1 = s)).map Prod.fst).Nodup :=
        hkeys.sublist ((List.filter_sublist inv).map Prod.fst)
      have h2 := ih (inv.filter (fun p => ¬ p.1 = s)) hkeys2 hsizes.2 tid
      have h3 : comb_total (inv_flat inv) tid =
          comb_total (bucket_of inv s) tid +
            comb_total (inv_flat (inv.filter (fun p => ¬ p.1 = s))) tid := by
        rw [comb_total_perm (inv_flat_split inv s hkeys) tid, comb_total_append]
      unfold layout_avail at *
      simp only [List.map_cons, List.sum_cons]
      omega

theorem try_template_layout_mem (inv : List (SizeTag × List (Task × Nat))) :
    ∀ (layout : List (SizeTag × Nat)) (comb : List (Task × Nat)) (tp ti : Nat),
      try_template_layout inv layout = some (comb, tp, ti) →
      ∀ e ∈ comb, ∃ p ∈ inv, ∃ a, (e.1, a) ∈ p.2 ∧ 0 < e.2 ∧ e.2 ≤ a := by
  intro layout
  induction layout with
  | nil =>
    intro comb tp ti h e he
    simp only [try_template_layout, Option.some_inj] at h
    rw [show comb = [] from congrArg (fun x => x.1) h.symm] at he
    simp at he
  | cons q rest ih =>
    intro comb tp ti h e he
    cases q with
    | mk size need =>
      simp only [try_template_layout] at h
      split at h
      · simp at h
      · rename_i bucket hb
        split at h
        · simp at h
        · split at h
          · simp at h
          · rename_i hsum r comb2 tp2 ti2 hrest
            simp only [Option.some_inj] at h
            rw [show comb =
                (draw_from_bucket (sort_desc_by (fun e => get_gang_priority e.1)
                  bucket) need).1 ++ comb2 from
              congrArg (fun x => x.1) h.symm] at he
            rcases List.mem_append.mp he with he1 | he1
            · rcases draw_from_bucket_mem _ need e he1 with ⟨a, ha, hpos, hle⟩
              have ha2 : (e.1, a) ∈ bucket :=
                (sort_desc_by_perm (fun e => get_gang_priority e.1)
                  bucket).mem_iff.mp ha
              exact ⟨(size, bucket), find_bucket_mem inv size bucket hb, a, ha2,
                hpos, hle⟩
            · exact ih comb2 tp2 ti2 hrest e he1

theorem find_best_from_templates_cases (inv : List (SizeTag × List (Task × Nat))) :
    ∀ (templates : List LayoutTemplate) (best : List (Task × Nat) × ℚ),
      (find_best_from_templates inv templates best).1 = best.1 ∨
      ∃ tpl ∈ templates, ∃ tp ti,
        try_template_layout inv tpl.layout =
          some ((find_best_from_templates inv templates best).1, tp, ti) := by
  intro templates
  induction templates with
  | nil => intro best; left; rfl
  | cons tpl rest ih =>
    intro best
    cases htry : try_template_layout inv tpl.layout with
    | none =>
      have hred : find_best_from_templates inv (tpl :: rest) best =
          find_best_from_templates inv rest best := by
        show (match try_template_layout inv tpl.layout with
          | none => find_best_from_templates inv rest best
          | some (comb, tp, ti) =>
            if ¬comb.isEmpty = true ∧ best.2 < score_of tpl tp ti then
              find_best_from_templates inv rest (comb, score_of tpl tp ti)
            else find_best_from_templates inv rest best) =
          find_best_from_templates inv rest best
        rw [htry]
      rw [hred]
      rcases ih best with h | ⟨t2, ht2, tp, ti, heq⟩
      · left; exact h
      · right; exact ⟨t2, List.mem_cons_of_mem _ ht2, tp, ti, heq⟩
    | some r =>
      rcases r with ⟨comb, tp, ti⟩
      by_cases hcond : ¬comb.isEmpty = true ∧ best.2 < score_of tpl tp ti
      · have hred : find_best_from_templates inv (tpl :: rest) best =
            find_best_from_templates inv rest (comb, score_of tpl tp ti) := by
          show (match try_template_layout inv tpl.layout with
            | none => find_best_from_templates inv rest best
            | some (comb, tp, ti) =>
              if ¬comb.isEmpty = true ∧ best.2 < score_of tpl tp ti then
                find_best_from_templates inv rest (comb, score_of tpl tp ti)
              else find_best_from_templates inv rest best) =
            find_best_from_templates inv rest (comb, score_of tpl tp ti)
          rw [htry]
          exact if_pos hcond
        rw [hred]
        rcases ih (comb, score_of tpl tp ti) with h | ⟨t2, ht2, tp2, ti2, heq⟩
        · right
          refine ⟨tpl, List.mem_cons_self _ _, tp, ti, ?_⟩
          rw [h]
          exact htry
        · right; exact ⟨t2, List.mem_cons_of_mem _ ht2, tp2, ti2, heq⟩
      · have hred : find_best_from_templates inv (tpl :: rest) best =
            find_best_from_templates inv rest best := by
          show (match try_template_layout inv tpl.layout with
            | none => find_best_from_templates inv rest best
            | some (comb, tp, ti) =>
              if ¬comb.isEmpty = true ∧ best.2 < score_of tpl tp ti then
                find_best_from_templates inv rest (comb, score_of tpl tp ti)
              else find_best_from_templates inv rest best) =
            find_best_from_templates inv rest best
          rw [htry]
          exact if_neg hcond
        rw [hred]
        rcases ih best with h | ⟨t2, ht2, tp2, ti2, heq⟩
        · left; exact h
        · right; exact ⟨t2, List.mem_cons_of_mem _ ht2, tp2, ti2, heq⟩

theorem single_size_candidate_sound (size : SizeTag) (bucket : List (Task × Nat))
    (comb : List (Task × Nat)) (score : ℚ)
    (h : single_size_candidate size bucket = some (comb, score)) :
    (∀ e ∈ comb, ∃ a, (e.1, a) ∈ bucket ∧ 0 < e.2 ∧ e.2 ≤ a) ∧
    ∀ tid, comb_total comb tid ≤ comb_total bucket tid := by
  unfold single_size_candidate at h
  by_cases hempty : bucket.isEmpty
  · rw [if_pos hempty] at h; simp at h
  · rw [if_neg hempty] at h
    by_cases hfit : get_fits_on_a3 size = 0
    · rw [if_pos hfit] at h; simp at h
    · rw [if_neg hfit] at h
      by_cases hdrawn : (draw_from_bucket (sort_desc_by
          (fun e => get_gang_priority e.1) bucket) (get_fits_on_a3 size)).1.isEmpty
      · rw [if_pos hdrawn] at h; simp at h
      · rw [if_neg hdrawn] at h
        simp only [Option.some_inj] at h
        have hcomb : comb = (draw_from_bucket (sort_desc_by
            (fun e => get_gang_priority e.1) bucket) (get_fits_on_a3 size)).1 :=
          congrArg (fun x => x.1) h.symm
        subst hcomb
        constructor
        · intro e he
          rcases draw_from_bucket_mem _ _ e he with ⟨a, ha, hpos, hle⟩
          exact ⟨a, (sort_desc_by_perm (fun e => get_gang_priority e.1)
            bucket).mem_iff.mp ha, hpos, hle⟩
        · intro tid
          have h1 := draw_from_bucket_bound tid (sort_desc_by
            (fun e => get_gang_priority e.1) bucket) (get_fits_on_a3 size)
          have h2 := comb_total_perm (sort_desc_by_perm
            (fun e => get_gang_priority e.1) bucket) tid
          omega

theorem find_single_size_aux_cases :
    ∀ (l : List (SizeTag × List (Task × Nat))) (best : List (Task × Nat) × ℚ),
      find_single_size_aux l best = best ∨
      ∃ p ∈ l, single_size_candidate p.1 p.2 = some (find_single_size_aux l best) := by
  intro l
  induction l with
  | nil => intro best; left; rfl
  | cons q rest ih =>
    intro best
    cases hcand : single_size_candidate q.1 q.2 with
    | none =>
      have hred : find_single_size_aux (q :: rest) best =
          find_single_size_aux rest best := by
        show (match single_size_candidate q.1 q.2 with
          | none => find_single_size_aux rest best
          | some c =>
            if best.2 < c.2 then find_single_size_aux rest c
            else find_single_size_aux rest best) = find_single_size_aux rest best
        rw [hcand]
      rw [hred]
      rcases ih best with h | ⟨p, hp, hsc⟩
      · left; exact h
      · right; exact ⟨p, List.mem_cons_of_mem _ hp, hsc⟩
    | some c =>
      by_cases hlt : best.2 < c.2
      · have hred : find_single_size_aux (q :: rest) best =
            find_single_size_aux rest c := by
          show (match single_size_candidate q.1 q.2 with
            | none => find_single_size_aux rest best
            | some c =>
              if best.2 < c.2 then find_single_size_aux rest c
              else find_single_size_aux rest best) = find_single_size_aux rest c
          rw [hcand]
          exact if_pos hlt
        rw [hred]
        rcases ih c with h | ⟨p, hp, hsc⟩
        · right
          refine ⟨q, List.mem_cons_self _ _, ?_⟩
          rw [h]
          exact hcand
        · right; exact ⟨p, List.mem_cons_of_mem _ hp, hsc⟩
      · have hred : find_single_size_aux (q :: rest) best =
            find_single_size_aux rest best := by
          show (match single_size_candidate q.1 q.2 with
            | none => find_single_size_aux rest best
            | some c =>
              if best.2 < c.2 then find_single_size_aux rest c
              else find_single_size_aux rest best) = find_single_size_aux rest best
          rw [hcand]
          exact if_neg hlt
        rw [hred]
        rcases ih best with h | ⟨p, hp, hsc⟩
        · left; exact h
        · right; exact ⟨p, List.mem_cons_of_mem _ hp, hsc⟩

theorem find_single_size_combination_sound
    (inv : List (SizeTag × List (Task × Nat))) :
    find_single_size_combination inv = [] ∨
    ∃ p ∈ inv,
      (∀ e ∈ find_single_size_combination inv, ∃ a, (e.1, a) ∈ p.2 ∧
        0 < e.2 ∧ e.2 ≤ a) ∧
      ∀ tid, comb_total (find_single_size_combination inv) tid ≤
        comb_total p.2 tid := by
  unfold find_single_size_combination
  rcases find_single_size_aux_cases inv ([], 0) with h | ⟨p, hp, hsc⟩
  · left; rw [h]
  · right
    refine ⟨p, hp, ?_, ?_⟩
    · intro e he
      exact (single_size_candidate_sound p.1 p.2 _ _ hsc).1 e he
    · intro tid
      exact (single_size_candidate_sound p.1 p.2 _ _ hsc).2 tid

theorem find_a3_single_cases (alloc : Nat → Nat) :
    ∀ l : List Task,
      (find_a3_single alloc l = [] ∧ ∀ t ∈ l, available_quantity alloc t = 0) ∨
      ∃ l1 t0 l2, l = l1 ++ t0 :: l2 ∧
        (∀ u ∈ l1, available_quantity alloc u = 0) ∧
        1 ≤ available_quantity alloc t0 ∧
        find_a3_single alloc l = [(t0, 1)] := by
  intro l
  induction l with
  | nil => left; exact ⟨rfl, by simp⟩
  | cons t ts ih =>
    by_cases ht : 1 ≤ available_quantity alloc t
    · right
      exact ⟨[], t, ts, rfl, by simp, ht, by simp [find_a3_single, ht]⟩
    · have hred : find_a3_single alloc (t :: ts) = find_a3_single alloc ts := by
        simp [find_a3_single, ht]
      rcases ih with ⟨h1, h2⟩ | ⟨l1, t0, l2, heq, hl1, ht0, hres⟩
      · left
        refine ⟨by rw [hred]; exact h1, ?_⟩
        intro u hu
        rcases List.mem_cons.mp hu with hu1 | hu1
        · subst hu1; omega
        · exact h2 u hu1
      · right
        refine ⟨t :: l1, t0, l2, by rw [heq, List.cons_append], ?_, ht0,
          by rw [hred]; exact hres⟩
        intro u hu
        rcases List.mem_cons.mp hu with hu1 | hu1
        · subst hu1; omega
        · exact hl1 u hu1

theorem comb_total_filter_map_le (alloc : Nat → Nat) :
    ∀ (tasks : List Task) (t : Task), (tasks.map Task.id).Nodup → t ∈ tasks →
      comb_total ((tasks.filter (fun u =>
          decide (u.size ≠ SizeTag.a3 ∧ 0 < available_quantity alloc u))).map
        (fun u => (u, available_quantity alloc u))) t.id ≤
        available_quantity alloc t := by
  intro tasks
  induction tasks with
  | nil => intro t _ ht; simp at ht
  | cons u rest ih =>
    intro t hnodup ht
    rw [List.map_cons, List.nodup_cons] at hnodup
    have hrest_zero : u.id ∉ rest.map Task.id →
        ∀ e ∈ (rest.filter (fun v =>
            decide (v.size ≠ SizeTag.a3 ∧ 0 < available_quantity alloc v))).map
          (fun v => (v, available_quantity alloc v)), e.1.id ≠ u.id := by
      intro hnot e he
      rcases List.mem_map.mp he with ⟨v, hv, hev⟩
      have he1 : e.1 = v := by rw [← hev]
      intro heid
      apply hnot
      rw [← heid, he1]
      exact List.mem_map.mpr ⟨v, List.mem_of_mem_filter hv, rfl⟩
    rcases List.mem_cons.mp ht with ht1 | ht1
    · subst ht1
      by_cases hc : t.size ≠ SizeTag.a3 ∧ 0 < available_quantity alloc t
      · rw [List.filter_cons_of_pos (by simpa using hc), List.map_cons,
          comb_total_cons, if_pos rfl]
        have hz := comb_total_eq_zero _ t.id (by
          intro e he
          exact hrest_zero hnodup.1 e he)
        omega
      · rw [List.filter_cons_of_neg (by simpa using hc)]
        have hz := comb_total_eq_zero ((rest.filter (fun v =>
            decide (v.size ≠ SizeTag.a3 ∧ 0 < available_quantity alloc v))).map
          (fun v => (v, available_quantity alloc v))) t.id (by
          intro e he
          exact hrest_zero hnodup.1 e he)
        omega
    · have htid : t.id ≠ u.id := by
        intro h
        apply hnodup.1
        rw [← h]
        exact List.mem_map.mpr ⟨t, ht1, rfl⟩
      have hih := ih t hnodup.2 ht1
      by_cases hc : u.size ≠ SizeTag.a3 ∧ 0 < available_quantity alloc u
      · rw [List.filter_cons_of_pos (by simpa using hc), List.map_cons,
          comb_total_cons, if_neg (fun h => htid h.symm)]
        omega
      · rw [List.filter_cons_of_neg (by simpa using hc)]
        exact hih

theorem mixed_templates_mem (tpl : LayoutTemplate)
    (h : tpl ∈ get_mixed_layout_templates) :
    (tpl.name, tpl.layout, tpl.priority) ∈ layout_templates_raw ∧
    tpl.utilization = calculate_template_utilization tpl.layout ∧
    0 < tpl.utilization ∧ tpl.utilization ≤ 1 := by
  unfold get_mixed_layout_templates at h
  rcases List.mem_filter.mp h with ⟨hmem, hcond⟩
  rcases List.mem_map.mp hmem with ⟨r, hr, heq⟩
  rw [decide_eq_true_eq] at hcond
  subst heq
  exact ⟨hr, rfl, hcond.1, hcond.2⟩

theorem raw_layout_sizes_nodup :
    ∀ r ∈ layout_templates_raw, (r.2.1.map Prod.fst).Nodup := by
  decide

theorem mixed_template_sizes_nodup (tpl : LayoutTemplate)
    (h : tpl ∈ get_mixed_layout_templates) : (tpl.layout.map Prod.fst).Nodup := by
  have h2 := (mixed_templates_mem tpl h).1
  exact raw_layout_sizes_nodup _ h2

theorem nodup_id_inj (tasks : List Task) (h : (tasks.map Task.id).Nodup)
    (t u : Task) (ht : t ∈ tasks) (hu : u ∈ tasks) (hid : t.id = u.id) : t = u :=
  List.inj_on_of_nodup_map h ht hu hid

theorem find_best_mem_of_no_a3 (tasks : List Task) (alloc : Nat → Nat)
    (h : tasks.filter (fun t => t.size = SizeTag.a3) = []) :
    ∀ e ∈ find_best_a3_combination tasks alloc,
      e.1 ∈ tasks ∧ 0 < e.2 ∧ e.1.size ≠ SizeTag.a3 := by
  intro e he
  unfold find_best_a3_combination at he
  rw [if_pos (by simp [h])] at he
  by_cases hinv : (build_available_tasks tasks alloc).isEmpty
  · rw [if_pos hinv] at he
    simp at he
  · rw [if_neg hinv] at he
    have hbuckets := build_available_tasks_buckets tasks alloc
    by_cases hbest : (find_best_from_templates (build_available_tasks tasks alloc)
        (sort_desc_by LayoutTemplate.priority get_mixed_layout_templates)
        ([], 0)).1.isEmpty
    · rw [if_pos hbest] at he
      rcases find_single_size_combination_sound (build_available_tasks tasks alloc)
        with hnil | ⟨p, hp, hmem, _⟩
      · rw [hnil] at he; simp at he
      · rcases hmem e he with ⟨a, ha, hpos, _⟩
        rcases hbuckets p hp (e.1, a) ha with ⟨_, htask, hsize, _, _⟩
        exact ⟨htask, hpos, hsize⟩
    · rw [if_neg hbest] at he
      rcases find_best_from_templates_cases (build_available_tasks tasks alloc)
        (sort_desc_by LayoutTemplate.priority get_mixed_layout_templates) ([], 0)
        with hnil | ⟨tpl, htpl, tp, ti, htry⟩
      · rw [hnil] at he; simp at he
      · rcases try_template_layout_mem _ tpl.layout _ tp ti htry e he
          with ⟨p, hp, a, ha, hpos, _⟩
        rcases hbuckets p hp (e.1, a) ha with ⟨_, htask, hsize, _, _⟩
        exact ⟨htask, hpos, hsize⟩

theorem find_best_a3_case (tasks : List Task) (alloc : Nat → Nat)
    (h : tasks.filter (fun t => t.size = SizeTag.a3) ≠ []) :
    find_best_a3_combination tasks alloc = [] ∨
    ∃ t0, find_best_a3_combination tasks alloc = [(t0, 1)] ∧ t0 ∈ tasks ∧
      t0.size = SizeTag.a3 ∧ 1 ≤ available_quantity alloc t0 ∧
      ∀ t2 ∈ tasks, t2.size = SizeTag.a3 → 1 ≤ available_quantity alloc t2 →
        get_gang_priority t2 ≤ get_gang_priority t0 := by
  have hred : find_best_a3_combination tasks alloc =
      find_a3_single alloc (sort_desc_by get_gang_priority
        (tasks.filter (fun t => t.size = SizeTag.a3))) := by
    unfold find_best_a3_combination
    rw [if_neg (by simpa using h)]
  rw [hred]
  rcases find_a3_single_cases alloc (sort_desc_by get_gang_priority
      (tasks.filter (fun t => t.size = SizeTag.a3))) with ⟨h1, _⟩ | ⟨l1, t0, l2, heq, hl1, ht0, hres⟩
  · left; exact h1
  · right
    have hperm := sort_desc_by_perm get_gang_priority
      (tasks.filter (fun t => t.size = SizeTag.a3))
    have hsorted := sort_desc_by_sorted get_gang_priority
      (tasks.filter (fun t => t.size = SizeTag.a3))
    have ht0mem : t0 ∈ tasks.filter (fun t => t.size = SizeTag.a3) := by
      apply hperm.mem_iff.mp
      rw [heq]
      exact List.mem_append_right _ (List.mem_cons_self _ _)
    refine ⟨t0, hres, List.mem_of_mem_filter ht0mem,
      by simpa using List.of_mem_filter ht0mem, ht0, ?_⟩
    intro t2 h2mem h2size h2avail
    have h2filter : t2 ∈ tasks.filter (fun t => t.size = SizeTag.a3) :=
      List.mem_filter.mpr ⟨h2mem, by simpa using h2size⟩
    have h2sorted : t2 ∈ l1 ++ t0 :: l2 := by
      rw [← heq]
      exact hperm.mem_iff.mpr h2filter
    rcases List.mem_append.mp h2sorted with h2l | h2r
    · exfalso
      have := hl1 t2 h2l
      omega
    · rcases List.mem_cons.mp h2r with h2e | h2l2
      · subst h2e; exact le_refl _
      · rw [heq] at hsorted
        have hpair := (List.pairwise_append.mp hsorted).2.1
        rw [List.pairwise_cons] at hpair
        exact hpair.1 t2 h2l2

theorem find_best_bound (tasks : List Task) (alloc : Nat → Nat)
    (hnodup : (tasks.map Task.id).Nodup) :
    ∀ t ∈ tasks, comb_total (find_best_a3_combination tasks alloc) t.id ≤
      available_quantity alloc t := by
  intro t ht
  by_cases ha3 : tasks.filter (fun u => u.size = SizeTag.a3) = []
  · -- template or fallback path: bound through the inventory
    have hflat_perm := build_available_tasks_flat tasks alloc
    have hflat_le : comb_total (inv_flat (build_available_tasks tasks alloc)) t.id ≤
        available_quantity alloc t := by
      rw [comb_total_perm hflat_perm t.id]
      exact comb_total_filter_map_le alloc tasks t hnodup ht
    unfold find_best_a3_combination
    rw [if_pos (by simp [ha3])]
    by_cases hinv : (build_available_tasks tasks alloc).isEmpty
    · rw [if_pos hinv]
      simp [comb_total_nil]
    · rw [if_neg hinv]
      by_cases hbest : (find_best_from_templates (build_available_tasks tasks alloc)
          (sort_desc_by LayoutTemplate.priority get_mixed_layout_templates)
          ([], 0)).1.isEmpty
      · rw [if_pos hbest]
        rcases find_single_size_combination_sound
          (build_available_tasks tasks alloc) with hnil | ⟨p, hp, _, hbound⟩
        · rw [hnil]; simp [comb_total_nil]
        · have h1 := hbound t.id
          have h2 := comb_total_bucket_le_flat _ p hp t.id
          omega
      · rw [if_neg hbest]
        rcases find_best_from_templates_cases (build_available_tasks tasks alloc)
          (sort_desc_by LayoutTemplate.priority get_mixed_layout_templates) ([], 0)
          with hnil | ⟨tpl, htpl, tp, ti, htry⟩
        · rw [hnil]; simp [comb_total_nil]
        · have h1 := try_template_layout_bound _ tpl.layout _ tp ti htry t.id
          have htplmem : tpl ∈ get_mixed_layout_templates :=
            (sort_desc_by_perm LayoutTemplate.priority
              get_mixed_layout_templates).mem_iff.mp htpl
          have h2 := layout_avail_le_flat tpl.layout
            (build_available_tasks tasks alloc)
            (build_available_tasks_keys_nodup tasks alloc)
            (mixed_template_sizes_nodup tpl htplmem) t.id
          omega
  · rcases find_best_a3_case tasks alloc ha3 with hnil | ⟨t0, hres, ht0mem, _, havail, _⟩
    · rw [hnil]; simp [comb_total_nil]
    · rw [hres, comb_total_cons, comb_total_nil]
      by_cases hid : t0.id = t.id
      · have heq2 : t0 = t := nodup_id_inj tasks hnodup t0 t ht0mem ht hid
        subst heq2
        simpa using havail
      · rw [if_neg hid]
        omega

theorem find_best_mem (tasks : List Task) (alloc : Nat → Nat) :
    ∀ e ∈ find_best_a3_combination tasks alloc, e.1 ∈ tasks := by
  intro e he
  by_cases ha3 : tasks.filter (fun t => t.size = SizeTag.a3) = []
  · exact (find_best_mem_of_no_a3 tasks alloc ha3 e he).1
  · rcases find_best_a3_case tasks alloc ha3 with hnil | ⟨t0, hres, ht0, _, _, _⟩
    · rw [hnil] at he; simp at he
    · rw [hres] at he
      rcases List.mem_singleton.mp he with rfl
      exact ht0

/-! ## Allocation bookkeeping lemmas -/

theorem update_alloc_eq (alloc : Nat → Nat) (id qty i : Nat) :
    update_alloc alloc id qty i = alloc i + (if id = i then qty else 0) := by
  unfold update_alloc
  by_cases h : i = id
  · rw [if_pos h, if_pos (h.symm), h]
  · rw [if_neg h, if_neg (fun h2 => h h2.symm)]
    omega

theorem assigns_total_append_assign
    (assigns : List (Nat × List (Nat × Nat))) (stage tid qty i : Nat) :
    assigns_total (append_assign assigns stage tid qty) i =
      assigns_total assigns i + (if tid = i then qty else 0) := by
  induction assigns with
  | nil =>
    unfold append_assign assigns_total
    by_cases h : tid = i <;> simp [List.filter_cons, h]
  | cons p rest ih =>
    cases p with
    | mk s l =>
      by_cases hs : s = stage
      · subst hs
        rw [show append_assign ((s, l) :: rest) s tid qty =
            (s, l ++ [(tid, qty)]) :: rest by simp [append_assign]]
        unfold assigns_total
        simp only [List.map_cons, List.sum_cons, List.filter_append,
          List.map_append, List.sum_append]
        by_cases h : tid = i <;> simp [List.filter_cons, h] <;> omega
      · rw [show append_assign ((s, l) :: rest) stage tid qty =
            (s, l) :: append_assign rest stage tid qty by simp [append_assign, hs]]
        unfold assigns_total at *
        simp only [List.map_cons, List.sum_cons]
        rw [ih]
        omega

theorem commit_items_spec (stage : Nat) (remaining : List Task) :
    ∀ (items : List (Task × Nat)) (r0 : CommitResult),
      (∀ i, (items.foldl (fun r item =>
          CommitResult.mk (update_alloc r.alloc item.1.id item.2)
            (append_assign r.assigns stage item.1.id item.2)
            (r.allocated + item.2)
            (if get_remaining_quantity item.1 ≤
                update_alloc r.alloc item.1.id item.2 item.1.id ∧
                item.1 ∈ remaining then
              r.to_remove ++ [item.1]
            else r.to_remove)) r0).alloc i = r0.alloc i + comb_total items i) ∧
      (∀ i, assigns_total ((items.foldl (fun r item =>
          CommitResult.mk (update_alloc r.alloc item.1.id item.2)
            (append_assign r.assigns stage item.1.id item.2)
            (r.allocated + item.2)
            (if get_remaining_quantity item.1 ≤
                update_alloc r.alloc item.1.id item.2 item.1.id ∧
                item.1 ∈ remaining then
              r.to_remove ++ [item.1]
            else r.to_remove)) r0).assigns) i =
        assigns_total r0.assigns i + comb_total items i) := by
  intro items
  induction items with
  | nil =>
    intro r0
    constructor <;> intro i <;> simp [comb_total_nil]
  | cons item rest ih =>
    intro r0
    rw [List.foldl_cons]
    constructor <;> intro i
    · rw [(ih _).1 i]
      show update_alloc r0.alloc item.1.id item.2 i + comb_total rest i = _
      rw [update_alloc_eq, comb_total_cons]
      by_cases h : item.1.id = i <;> simp [h] <;> omega
    · rw [(ih _).2 i]
      show assigns_total (append_assign r0.assigns stage item.1.id item.2) i +
        comb_total rest i = _
      rw [assigns_total_append_assign, comb_total_cons]
      by_cases h : item.1.id = i <;> simp [h] <;> omega

theorem commit_state_alloc (st : GroupState) (stage : Nat)
    (items : List (Task × Nat)) (i : Nat) :
    (commit_state st stage items).alloc i = st.alloc i + comb_total items i :=
  (commit_items_spec stage st.remaining_tasks items
    (CommitResult.mk st.alloc st.assigns 0 [])).1 i

theorem commit_state_assigns (st : GroupState) (stage : Nat)
    (items : List (Task × Nat)) (i : Nat) :
    assigns_total (commit_state st stage items).assigns i =
      assigns_total st.assigns i + comb_total items i :=
  (commit_items_spec stage st.remaining_tasks items
    (CommitResult.mk st.alloc st.assigns 0 [])).2 i

theorem remove_tasks_sublist (to_remove : List Task) :
    ∀ remaining : List Task, List.Sublist (remove_tasks remaining to_remove) remaining := by
  induction to_remove with
  | nil => intro remaining; exact List.Sublist.refl _
  | cons t rest ih =>
    intro remaining
    unfold remove_tasks at *
    rw [List.foldl_cons]
    exact (ih (remaining.erase t)).trans (List.erase_sublist t remaining)

theorem commit_state_remaining (st : GroupState) (stage : Nat)
    (items : List (Task × Nat)) :
    List.Sublist (commit_state st stage items).remaining_tasks st.remaining_tasks :=
  remove_tasks_sublist _ st.remaining_tasks

theorem group_loop_invariant (tasks0 : List Task)
    (hids : (tasks0.map Task.id).Nodup) :
    ∀ (fuel : Nat) (st : GroupState),
      (∀ i, assigns_total st.assigns i = st.alloc i) →
      (∀ t ∈ tasks0, st.alloc t.id ≤ get_remaining_quantity t) →
      (∀ t ∈ st.remaining_tasks, t ∈ tasks0) →
      (st.remaining_tasks.map Task.id).Nodup →
      (∀ i, assigns_total (group_loop fuel st).assigns i =
        (group_loop fuel st).alloc i) ∧
      (∀ t ∈ tasks0, (group_loop fuel st).alloc t.id ≤
        get_remaining_quantity t) := by
  intro fuel
  induction fuel with
  | zero => intro st h1 h2 _ _; exact ⟨h1, h2⟩
  | succ n ih =>
    intro st h1 h2 h3 h4
    have hstep : ∀ (stage : Nat) (items : List (Task × Nat)),
        (∀ i, comb_total items i ≤
          comb_total (find_best_a3_combination st.remaining_tasks st.alloc) i) →
        (∀ i, assigns_total (commit_state st stage items).assigns i =
            (commit_state st stage items).alloc i) ∧
        (∀ t ∈ tasks0, (commit_state st stage items).alloc t.id ≤
            get_remaining_quantity t) ∧
        (∀ t ∈ (commit_state st stage items).remaining_tasks, t ∈ tasks0) ∧
        ((commit_state st stage items).remaining_tasks.map Task.id).Nodup := by
      intro stage items hsub
      refine ⟨?_, ?_, ?_, ?_⟩
      · intro i
        rw [commit_state_assigns, commit_state_alloc, h1 i]
      · intro t ht
        rw [commit_state_alloc]
        by_cases hrem : t ∈ st.remaining_tasks
        · have hb := find_best_bound st.remaining_tasks st.alloc h4 t hrem
          have hs := hsub t.id
          have h2t := h2 t ht
          unfold available_quantity at hb
          omega
        · have hzero : comb_total (find_best_a3_combination st.remaining_tasks
              st.alloc) t.id = 0 := by
            apply comb_total_eq_zero
            intro e he hid
            apply hrem
            have he1 := find_best_mem st.remaining_tasks st.alloc e he
            have heq2 : e.1 = t := nodup_id_inj tasks0 hids e.1 t (h3 e.1 he1) ht hid
            rw [← heq2]
            exact he1
          have hs := hsub t.id
          have h2t := h2 t ht
          omega
      · intro t ht
        exact h3 t ((commit_state_remaining st stage items).subset ht)
      · exact h4.sublist ((commit_state_remaining st stage items).map Task.id)
    by_cases hstop : st.remaining_tasks.isEmpty ∨ st.lay_stages.isEmpty
    · rw [show group_loop (n + 1) st = st by
        simp only [group_loop]
        rw [if_pos hstop]]
      exact ⟨h1, h2⟩
    · by_cases hbest :
          (find_best_a3_combination st.remaining_tasks st.alloc).isEmpty
      · rw [show group_loop (n + 1) st = st by
          simp only [group_loop]
          rw [if_neg hstop, if_pos hbest]]
        exact ⟨h1, h2⟩
      · by_cases hgang : should_gang_combination
            (find_best_a3_combination st.remaining_tasks st.alloc) = true
        · cases hacq : (acquire_stage st).1 with
          | none =>
            rw [show group_loop (n + 1) st =
                { st with lay_stages := (acquire_stage st).2.1,
                          current_lay := none,
                          sheets_in_current := (acquire_stage st).2.2 } by
              simp only [group_loop]
              rw [if_neg hstop, if_neg hbest, if_pos hgang, hacq]]
            exact ⟨h1, h2⟩
          | some stage =>
            rw [show group_loop (n + 1) st =
                group_loop n (commit_state st stage
                  (find_best_a3_combination st.remaining_tasks st.alloc)) by
              simp only [group_loop]
              rw [if_neg hstop, if_neg hbest, if_pos hgang, hacq]]
            rcases hstep stage _ (fun i => le_refl _) with ⟨s1, s2, s3, s4⟩
            exact ih _ s1 s2 s3 s4
        · by_cases hcrit : ((find_best_a3_combination st.remaining_tasks
              st.alloc).filter (fun item => 100 ≤ get_gang_priority item.1)).isEmpty
          · rw [show group_loop (n + 1) st = st by
              simp only [group_loop]
              rw [if_neg hstop, if_neg hbest, if_neg hgang, if_pos hcrit]]
            exact ⟨h1, h2⟩
          · cases hacq : (acquire_stage st).1 with
            | none =>
              rw [show group_loop (n + 1) st =
                  group_loop n
                    { st with lay_stages := (acquire_stage st).2.1,
                              current_lay := none,
                              sheets_in_current := (acquire_stage st).2.2 } by
                simp only [group_loop]
                rw [if_neg hstop, if_neg hbest, if_neg hgang, if_neg hcrit, hacq]]
              exact ih _ h1 h2 h3 h4
            | some stage =>
              rw [show group_loop (n + 1) st =
                  group_loop n (commit_state st stage
                    ((find_best_a3_combination st.remaining_tasks st.alloc).filter
                      (fun item => 100 ≤ get_gang_priority item.1))) by
                simp only [group_loop]
                rw [if_neg hstop, if_neg hbest, if_neg hgang, if_neg hcrit, hacq]]
              rcases hstep stage _ (fun i => comb_total_filter_le _ _ i)
                with ⟨s1, s2, s3, s4⟩
              exact ih _ s1 s2 s3 s4

/-! ## Grouping and cross-compatibility pool lemmas -/

theorem add_to_group_prop (gs : List (String × List Task)) (k : String) (t : Task)
    (hgs : ∀ p ∈ gs, ∀ u ∈ p.2, group_key u = p.1) (ht : group_key t = k) :
    ∀ p ∈ add_to_group gs k t, ∀ u ∈ p.2, group_key u = p.1 := by
  induction gs with
  | nil =>
    intro p hp u hu
    simp only [add_to_group, List.mem_singleton] at hp
    subst hp
    simp only [List.mem_singleton] at hu
    subst hu
    exact ht
  | cons q rest ih =>
    intro p hp u hu
    cases q with
    | mk k0 l =>
      by_cases hk : k0 = k
      · subst hk
        rw [show add_to_group ((k0, l) :: rest) k0 t = (k0, l ++ [t]) :: rest by
          simp [add_to_group]] at hp
        rcases List.mem_cons.mp hp with hp1 | hp1
        · subst hp1
          rcases List.mem_append.mp hu with hu1 | hu1
          · exact hgs (k0, l) (List.mem_cons_self _ _) u hu1
          · rcases List.mem_singleton.mp hu1 with rfl
            exact ht
        · exact hgs p (List.mem_cons_of_mem _ hp1) u hu
      · rw [show add_to_group ((k0, l) :: rest) k t =
            (k0, l) :: add_to_group rest k t by simp [add_to_group, hk]] at hp
        rcases List.mem_cons.mp hp with hp1 | hp1
        · subst hp1
          exact hgs (k0, l) (List.mem_cons_self _ _) u hu
        · exact ih (fun q hq => hgs q (List.mem_cons_of_mem _ hq)) p hp1 u hu

theorem group_by_compatibility_keys (tasks : List Task) :
    ∀ p ∈ group_by_compatibility tasks, ∀ u ∈ p.2, group_key u = p.1 := by
  have haux : ∀ (l : List Task) (gs : List (String × List Task)),
      (∀ p ∈ gs, ∀ u ∈ p.2, group_key u = p.1) →
      ∀ p ∈ l.foldl (fun gs t => add_to_group gs (group_key t) t) gs,
        ∀ u ∈ p.2, group_key u = p.1 := by
    intro l
    induction l with
    | nil => intro gs h; exact h
    | cons t rest ih =>
      intro gs h
      rw [List.foldl_cons]
      exact ih _ (add_to_group_prop gs (group_key t) t h rfl)
  exact haux tasks [] (by simp)

theorem group_key_zero_iff (t : Task) :
    group_key t = "zero_group" ↔ t.productType = ProductType.zero := by
  cases h : t.productType <;> simp [group_key, h]

theorem group_key_full_colour (t : Task) (h : group_key t = "full_colour") :
    t.productType = ProductType.full_colour := by
  cases hp : t.productType <;> rw [group_key, hp] at h <;> first | rfl | exact absurd h (by decide)

theorem group_key_single_colour (t : Task)
    (h : group_key t = "single_colour_group") :
    t.productType = ProductType.single_colour := by
  cases hp : t.productType <;> rw [group_key, hp] at h <;> first | rfl | exact absurd h (by decide)

theorem group_key_metal (t : Task) (h : group_key t = "metal") :
    t.productType = ProductType.metal := by
  cases hp : t.productType <;> rw [group_key, hp] at h <;> first | rfl | exact absurd h (by decide)

theorem lookup_group_keys (k : String) :
    ∀ gs : List (String × List Task),
      (∀ p ∈ gs, ∀ u ∈ p.2, group_key u = p.1) →
      ∀ t ∈ lookup_group gs k, group_key t = k := by
  intro gs
  induction gs with
  | nil => intro _ t ht; simp [lookup_group] at ht
  | cons p rest ih =>
    intro h t ht
    cases p with
    | mk k0 l =>
      by_cases hk : k0 = k
      · subst hk
        rw [show lookup_group ((k0, l) :: rest) k0 = l by simp [lookup_group]] at ht
        exact h (k0, l) (List.mem_cons_self _ _) t ht
      · rw [show lookup_group ((k0, l) :: rest) k = lookup_group rest k by
          simp [lookup_group, hk]] at ht
        exact ih (fun q hq => h q (List.mem_cons_of_mem _ hq)) t ht

theorem pools_no_zero (unprocessed : List (String × List Task))
    (hgs : ∀ p ∈ unprocessed, ∀ u ∈ p.2, group_key u = p.1) :
    ∀ pool ∈ create_cross_compatibility_pools unprocessed,
      ∀ t ∈ pool, t.productType ≠ ProductType.zero := by
  intro pool hpool t ht
  have hfc : ∀ u ∈ lookup_group unprocessed "full_colour",
      u.productType ≠ ProductType.zero := by
    intro u hu h
    have := group_key_full_colour u (lookup_group_keys _ unprocessed hgs u hu)
    rw [h] at this
    exact absurd this (by decide)
  have hsc : ∀ u ∈ lookup_group unprocessed "single_colour_group",
      u.productType ≠ ProductType.zero := by
    intro u hu h
    have := group_key_single_colour u (lookup_group_keys _ unprocessed hgs u hu)
    rw [h] at this
    exact absurd this (by decide)
  have hmt : ∀ u ∈ lookup_group unprocessed "metal",
      u.productType ≠ ProductType.zero := by
    intro u hu h
    have := group_key_metal u (lookup_group_keys _ unprocessed hgs u hu)
    rw [h] at this
    exact absurd this (by decide)
  simp only [create_cross_compatibility_pools] at hpool
  rcases List.mem_append.mp hpool with hp | hp
  · rcases List.mem_append.mp hp with hp1 | hp1
    · split at hp1
      · simp at hp1
      · rcases List.mem_singleton.mp hp1 with rfl
        rcases List.mem_append.mp ht with ht1 | ht1
        · exact hfc t ht1
        · exact hsc t (List.mem_of_mem_filter ht1)
    · split at hp1
      · simp at hp1
      · rcases List.mem_singleton.mp hp1 with rfl
        rcases List.mem_append.mp ht with ht1 | ht1
        · exact hmt t ht1
        · exact hsc t (List.mem_of_mem_filter ht1)
  · split at hp
    · simp at hp
    · rcases List.mem_singleton.mp hp with rfl
      exact hsc t (List.mem_of_mem_filter ht)

/-! ## Claim theorems on the allocation loop and selector -/

/-- C1: throughout every run of the `_process_compatibility_group` loop
(any fuel, any state satisfying the run invariants — which the freshly
initialised state of `analyze_and_gang_tasks` does), for every task the
Slot Assignment Map's per-task quantity total equals that task's entry in
the Allocation Record, and that entry never exceeds the task's remaining
quantity measured at run start. -/
theorem claim_C1 (tasks0 : List Task) (fuel : Nat) (st : GroupState)
    (hids : (tasks0.map Task.id).Nodup)
    (h1 : ∀ i, assigns_total st.assigns i = st.alloc i)
    (h2 : ∀ t ∈ tasks0, st.alloc t.id ≤ get_remaining_quantity t)
    (h3 : ∀ t ∈ st.remaining_tasks, t ∈ tasks0)
    (h4 : (st.remaining_tasks.map Task.id).Nodup) :
    (∀ i, assigns_total (group_loop fuel st).assigns i =
      (group_loop fuel st).alloc i) ∧
    (∀ t ∈ tasks0, (group_loop fuel st).alloc t.id ≤
      get_remaining_quantity t) :=
  group_loop_invariant tasks0 hids fuel st h1 h2 h3 h4

/-- Witness for C1: a fresh run over one a6 task of quantity 20 with two
LAY stages available and three loop iterations. -/
theorem claim_C1_witness :
    (∀ i, assigns_total (group_loop 3 (GroupState.mk
        [Task.mk 7 ProductType.full_colour none SizeTag.a6 20 none false 50 2]
        [1, 2] none 0 (fun _ => 0) [] 0)).assigns i =
      (group_loop 3 (GroupState.mk
        [Task.mk 7 ProductType.full_colour none SizeTag.a6 20 none false 50 2]
        [1, 2] none 0 (fun _ => 0) [] 0)).alloc i) ∧
    (∀ t ∈ [Task.mk 7 ProductType.full_colour none SizeTag.a6 20 none false 50 2],
      (group_loop 3 (GroupState.mk
          [Task.mk 7 ProductType.full_colour none SizeTag.a6 20 none false 50 2]
          [1, 2] none 0 (fun _ => 0) [] 0)).alloc t.id ≤
        get_remaining_quantity t) :=
  claim_C1
    [Task.mk 7 ProductType.full_colour none SizeTag.a6 20 none false 50 2] 3
    (GroupState.mk
      [Task.mk 7 ProductType.full_colour none SizeTag.a6 20 none false 50 2]
      [1, 2] none 0 (fun _ => 0) [] 0)
    (by decide) (fun i => rfl) (fun t _ => Nat.zero_le _) (fun t ht => ht)
    (by decide)

/-- C9: no combination the selector returns contains more than one entry
of the native a3 size; with an a3 task in the pool the result is empty or
a quantity-1 singleton drawn from the highest-priority a3 task with
available quantity; every primary compatibility group is either purely
Zero-type (`zero_group`) or entirely Zero-free; the cross-compatibility
pools never contain a Zero-type task; and a combination drawn from a
Zero-pure (resp. Zero-free) pool involves only Zero-type (resp. only
non-Zero) tasks. -/
theorem claim_C9 :
    (∀ (tasks : List Task) (alloc : Nat → Nat),
      ((find_best_a3_combination tasks alloc).filter
        (fun e => e.1.size = SizeTag.a3)).length ≤ 1) ∧
    (∀ (tasks : List Task) (alloc : Nat → Nat),
      (∃ t ∈ tasks, t.size = SizeTag.a3) →
      find_best_a3_combination tasks alloc = [] ∨
      ∃ t0, find_best_a3_combination tasks alloc = [(t0, 1)] ∧ t0 ∈ tasks ∧
        t0.size = SizeTag.a3 ∧ 1 ≤ available_quantity alloc t0 ∧
        ∀ t2 ∈ tasks, t2.size = SizeTag.a3 → 1 ≤ available_quantity alloc t2 →
          get_gang_priority t2 ≤ get_gang_priority t0) ∧
    (∀ (tasks : List Task), ∀ p ∈ group_by_compatibility tasks,
      (∀ t ∈ p.2, t.productType = ProductType.zero) ∨
      (∀ t ∈ p.2, t.productType ≠ ProductType.zero)) ∧
    (∀ (tasks : List Task),
      ∀ pool ∈ create_cross_compatibility_pools (group_by_compatibility tasks),
        ∀ t ∈ pool, t.productType ≠ ProductType.zero) ∧
    (∀ (pool : List Task) (alloc : Nat → Nat),
      ((∀ t ∈ pool, t.productType = ProductType.zero) →
        ∀ e ∈ find_best_a3_combination pool alloc,
          e.1.productType = ProductType.zero) ∧
      ((∀ t ∈ pool, t.productType ≠ ProductType.zero) →
        ∀ e ∈ find_best_a3_combination pool alloc,
          e.1.productType ≠ ProductType.zero)) := by
  refine ⟨?_, ?_, ?_, ?_, ?_⟩
  · intro tasks alloc
    by_cases ha3 : tasks.filter (fun t => t.size = SizeTag.a3) = []
    · have hnil : (find_best_a3_combination tasks alloc).filter
          (fun e => e.1.size = SizeTag.a3) = [] := by
        rw [List.filter_eq_nil_iff]
        intro e he
        have := (find_best_mem_of_no_a3 tasks alloc ha3 e he).2.2
        simpa using this
      rw [hnil]
      simp
    · rcases find_best_a3_case tasks alloc ha3 with hnil | ⟨t0, hres, _, _, _, _⟩
      · rw [hnil]; simp
      · rw [hres]
        exact List.length_filter_le _ _
  · intro tasks alloc hsome
    have hfilter : tasks.filter (fun t => t.size = SizeTag.a3) ≠ [] := by
      rcases hsome with ⟨t, ht, hsize⟩
      intro h
      have hmem : t ∈ tasks.filter (fun t => t.size = SizeTag.a3) :=
        List.mem_filter.mpr ⟨ht, by simpa using hsize⟩
      rw [h] at hmem
      simp at hmem
    exact find_best_a3_case tasks alloc hfilter
  · intro tasks p hp
    by_cases hz : p.1 = "zero_group"
    · left
      intro t ht
      exact (group_key_zero_iff t).mp
        (by rw [group_by_compatibility_keys tasks p hp t ht, hz])
    · right
      intro t ht hzero
      apply hz
      rw [← group_by_compatibility_keys tasks p hp t ht]
      exact (group_key_zero_iff t).mpr hzero
  · intro tasks pool hpool t ht
    exact pools_no_zero (group_by_compatibility tasks)
      (group_by_compatibility_keys tasks) pool hpool t ht
  · intro pool alloc
    constructor
    · intro hall e he
      exact hall e.1 (find_best_mem pool alloc e he)
    · intro hall e he
      exact hall e.1 (find_best_mem pool alloc e he)

/-- C10: when the pool holds an a3-size task but every a3 task's
available quantity (remaining minus already allocated this run) is 0,
the selector returns the empty combination — even when non-a3 tasks with
positive availability are present. -/
theorem claim_C10 (tasks : List Task) (alloc : Nat → Nat)
    (hsome : ∃ t ∈ tasks, t.size = SizeTag.a3)
    (hzero : ∀ t ∈ tasks, t.size = SizeTag.a3 → available_quantity alloc t = 0) :
    find_best_a3_combination tasks alloc = [] := by
  have hfilter : tasks.filter (fun t => t.size = SizeTag.a3) ≠ [] := by
    rcases hsome with ⟨t, ht, hsize⟩
    intro h
    have hmem : t ∈ tasks.filter (fun t => t.size = SizeTag.a3) :=
      List.mem_filter.mpr ⟨ht, by simpa using hsize⟩
    rw [h] at hmem
    simp at hmem
  rcases find_best_a3_case tasks alloc hfilter with h | ⟨t0, _, ht0mem, ht0size, havail, _⟩
  · exact h
  · exfalso
    have := hzero t0 ht0mem ht0size
    omega

/-- Witness for C10: an a3 task whose 3 remaining units are all already
allocated this run, next to an a6 task with 20 available units — the
selector still returns nothing. -/
theorem claim_C10_witness :
    find_best_a3_combination
      [Task.mk 1 ProductType.full_colour none SizeTag.a3 3 none false 50 2,
       Task.mk 2 ProductType.full_colour none SizeTag.a6 20 none false 50 2]
      (fun i => if i = 1 then 3 else 0) = [] :=
  claim_C10
    [Task.mk 1 ProductType.full_colour none SizeTag.a3 3 none false 50 2,
     Task.mk 2 ProductType.full_colour none SizeTag.a6 20 none false 50 2]
    (fun i => if i = 1 then 3 else 0)
    ⟨Task.mk 1 ProductType.full_colour none SizeTag.a3 3 none false 50 2,
      List.mem_cons_self _ _, rfl⟩
    (by decide)

theorem max_template_discarded (nm : String) (lay : List (SizeTag × Nat))
    (hraw : ∀ r ∈ layout_templates_raw, r.1 = nm → r.2.1 = lay)
    (hzero : calculate_template_utilization lay = 0) :
    ∀ tpl ∈ get_mixed_layout_templates, tpl.name ≠ nm := by
  intro tpl htpl hname
  have hm := mixed_templates_mem tpl htpl
  have hlay : tpl.layout = lay := by
    have h2 := hm.1
    rw [hname] at h2
    exact hraw _ h2 rfl
  have hupos := hm.2.2.1
  rw [hm.2.1, hlay, hzero] at hupos
  exact absurd hupos (by norm_num)

/-- C5 counterexample: the "maximum density" template `Max 100x70 only`
(forty 100x70 items) is not capped by the catalog build — it is
discarded: its placeholder count cannot be shelf-packed (the sheet holds
only 16), so its computed utilization is 0 and the `0 < utilization`
filter removes it from the catalog used for allocation. -/
theorem claim_C5_counterexample :
    ¬ ∃ tpl ∈ get_mixed_layout_templates, tpl.name = "Max 100x70 only" := by
  rintro ⟨tpl, htpl, hname⟩
  refine absurd hname (max_template_discarded "Max 100x70 only"
    [(SizeTag.s100x70, 40)] (by decide) ?_ tpl htpl)
  have hpack : pack_layout [(SizeTag.s100x70, 40)] = none := by decide
  unfold calculate_template_utilization
  rw [hpack]

/-- C5 (amended): catalog build recomputes every surviving template's
utilization and keeps exactly those in (0,1]; the three "maximum
density" single-size placeholder templates (40×100x70, 28×95x95,
72×60x60) all have utilization 0 — their placeholder counts exceed what
the sheet geometry supports — so they are discarded, not capped, and are
unavailable for allocation; maximum single-size fills come instead from
the selector's single-size fallback, whose true per-size sheet
capacities are 16 (100x70), 12 (95x95) and 24 (60x60). -/
theorem claim_C5_amended :
    (∀ tpl ∈ get_mixed_layout_templates,
      0 < tpl.utilization ∧ tpl.utilization ≤ 1 ∧
      tpl.utilization = calculate_template_utilization tpl.layout) ∧
    calculate_template_utilization [(SizeTag.s100x70, 40)] = 0 ∧
    calculate_template_utilization [(SizeTag.s95x95, 28)] = 0 ∧
    calculate_template_utilization [(SizeTag.s60x60, 72)] = 0 ∧
    (∀ tpl ∈ get_mixed_layout_templates,
      tpl.name ≠ "Max 100x70 only" ∧ tpl.name ≠ "Max 95x95 only" ∧
      tpl.name ≠ "Max 60x60 only") ∧
    get_fits_on_a3 SizeTag.s100x70 = 16 ∧
    get_fits_on_a3 SizeTag.s95x95 = 12 ∧
    get_fits_on_a3 SizeTag.s60x60 = 24 := by
  have hz1 : calculate_template_utilization [(SizeTag.s100x70, 40)] = 0 := by
    have hpack : pack_layout [(SizeTag.s100x70, 40)] = none := by decide
    unfold calculate_template_utilization
    rw [hpack]
  have hz2 : calculate_template_utilization [(SizeTag.s95x95, 28)] = 0 := by
    have hpack : pack_layout [(SizeTag.s95x95, 28)] = none := by decide
    unfold calculate_template_utilization
    rw [hpack]
  have hz3 : calculate_template_utilization [(SizeTag.s60x60, 72)] = 0 := by
    have hpack : pack_layout [(SizeTag.s60x60, 72)] = none := by decide
    unfold calculate_template_utilization
    rw [hpack]
  refine ⟨?_, hz1, hz2, hz3, ?_, by decide, by decide, by decide⟩
  · intro tpl htpl
    have hm := mixed_templates_mem tpl htpl
    exact ⟨hm.2.2.1, hm.2.2.2, hm.2.1⟩
  · intro tpl htpl
    exact ⟨max_template_discarded "Max 100x70 only" [(SizeTag.s100x70, 40)]
        (by decide) hz1 tpl htpl,
      max_template_discarded "Max 95x95 only" [(SizeTag.s95x95, 28)]
        (by decide) hz2 tpl htpl,
      max_template_discarded "Max 60x60 only" [(SizeTag.s60x60, 72)]
        (by decide) hz3 tpl htpl⟩

end TransferGanging
